import Mathlib

/-!
Verification of the rustemo fork's LR table construction (`src/table.rs`),
index newtypes (`rustemort/src/index.rs`) and the RNGLR runtime
(`rustemo/src/glr/parser.rs`), as a shallow embedding in Lean 4.

Conventions of the embedding:
* Rust `usize` values are modelled as `Nat` (no arithmetic here can overflow:
  positions and lengths only grow by input lengths).
* `HashSet<SymbolIndex>` is modelled as a duplicate-free `List Nat` with
  membership-checking insertion; `HashSet::len` is the list length, and
  `extend` inserts the given elements one by one.  Only membership, emptiness
  and cardinality of these sets are ever observed by the Rust code.
* Grammar symbols are dense `Nat` indices: terminals occupy `[0, termCount)`
  and non-terminals `[termCount, termCount + nontermCount)`; index 0 is STOP.
  `nonterm_to_symbol` is `termCount + ·`.
* The `while additions { … }` fixed-point loops of `first_sets` and
  `follow_sets` are modelled with an explicit pass counter (fuel); in Rust the
  loop runs until a pass makes no addition, which the theorems record as a
  (decidable) convergence hypothesis on the final state.
* `panic!` / `todo!` are modelled as an explicit `panicked` outcome: the Rust
  functions involved return `()` and have no error channel.
-/

set_option maxRecDepth 10000

namespace Rustemo

/-- Model of `HashSet<SymbolIndex>`: a list of symbol indices used with
membership-checking insertion so that its length matches `HashSet::len`. -/
abbrev SymSet := List Nat

/-- Model of `HashSet::insert`: add `x` unless already present. -/
def SymSet.insertSym (s : SymSet) (x : Nat) : SymSet :=
  if x ∈ s then s else x :: s

/-- Model of `HashSet::extend`: insert every element of `xs` into `s`. -/
def SymSet.extendSet (s : SymSet) (xs : List Nat) : SymSet :=
  xs.foldl SymSet.insertSym s

/-- Model of `Production` (`rustemort::grammar`): LHS non-terminal index and
the RHS symbol references (after `res_symbol` resolution). -/
structure Production where
  nonterminal : Nat
  rhs : List Nat
  deriving DecidableEq, Repr

/-- Model of the parts of `Grammar` consumed by `src/table.rs`
(the grammar model itself lives outside the staged sources): dense symbol
indices, terminals first, `nonterm_to_symbol nt = termCount + nt`. -/
structure Grammar where
  termCount : Nat
  nontermCount : Nat
  emptyIndex : Nat
  startIndex : Nat
  stopIndex : Nat
  productions : List Production
  deriving DecidableEq, Repr

def Grammar.symbolCount (g : Grammar) : Nat := g.termCount + g.nontermCount

/-- Model of `Grammar::nonterm_to_symbol`. -/
def Grammar.lhsSymbol (g : Grammar) (p : Production) : Nat :=
  g.termCount + p.nonterminal

/-- Structural wellformedness used by the FIRST theorems: EMPTY is a
non-terminal symbol and no production has EMPTY as its LHS. -/
def Grammar.wf (g : Grammar) : Prop :=
  g.termCount ≤ g.emptyIndex ∧
    ∀ p ∈ g.productions, g.lhsSymbol p ≠ g.emptyIndex

instance (g : Grammar) : Decidable g.wf := by
  unfold Grammar.wf; infer_instance

/-! Model of `firsts` (`src/table.rs:262-294`): FIRST of a sequence of
symbols.  The Rust loop accumulates into one `HashSet`, inserting the
non-EMPTY elements of each symbol's FIRST and stopping at the first symbol
whose FIRST lacks EMPTY; if the scan reached the end, EMPTY is inserted. -/
def firstsAux (g : Grammar) (fs : Nat → SymSet) : List Nat → SymSet → SymSet
  | [], acc => acc.insertSym g.emptyIndex
  | s :: rest, acc =>
    let acc2 := acc.extendSet ((fs s).filter (fun x => x ≠ g.emptyIndex))
    if g.emptyIndex ∈ fs s then firstsAux g fs rest acc2 else acc2

def firsts (g : Grammar) (fs : Nat → SymSet) (symbols : List Nat) : SymSet :=
  firstsAux g fs symbols []

/-! Model of `first_sets` (`src/table.rs:210-255`).  The Rust code seeds each
terminal's set with itself, each non-terminal with the empty set, inserts
EMPTY into FIRST(EMPTY), then iterates over productions extending
FIRST(lhs) with `firsts(rhs)` until a pass makes no addition.  The sets are
held in a `SymbolVec` indexed by symbol; we model it as a function. -/
def firstInit (g : Grammar) : Nat → SymSet := fun s =>
  let base : SymSet := if s < g.termCount then [s] else []
  if s = g.emptyIndex then base.insertSym g.emptyIndex else base

/-- One production step of the `while additions` pass: extend FIRST(lhs) with
`firsts(rhs)` and record whether the set grew (the `additions` flag). -/
def firstPassProd (g : Grammar) (st : (Nat → SymSet) × Bool) (p : Production) :
    (Nat → SymSet) × Bool :=
  let fs := st.1
  let lhs := g.lhsSymbol p
  let lhsLen := (fs lhs).length
  let rhsFirsts := firsts g fs p.rhs
  let newSet := (fs lhs).extendSet rhsFirsts
  (fun s => if s = lhs then newSet else fs s,
    st.2 || decide (lhsLen < newSet.length))

/-- One full pass over the production list (the body of `while additions`). -/
def firstPass (g : Grammar) (fs : Nat → SymSet) : (Nat → SymSet) × Bool :=
  g.productions.foldl (firstPassProd g) (fs, false)

/-- The `while additions` loop with an explicit pass bound.  The Rust loop
stops after the first pass that makes no addition. -/
def firstIter (g : Grammar) : Nat → (Nat → SymSet) → Nat → SymSet
  | 0, fs => fs
  | fuel + 1, fs =>
    let st := firstPass g fs
    if st.2 then firstIter g fuel st.1 else st.1

/-- Pass bound: every pass but the last adds at least one element, and the
total capacity of all FIRST sets is below this bound. -/
def firstFuel (g : Grammar) : Nat := (g.symbolCount + 1) * (g.symbolCount + 1)

def first_sets (g : Grammar) : Nat → SymSet :=
  firstIter g (firstFuel g) (firstInit g)

/-- The convergence condition the Rust loop's exit guarantees: one more pass
over the computed sets makes no addition. -/
def FirstConverged (g : Grammar) : Prop := (firstPass g (first_sets g)).2 = false

instance (g : Grammar) : Decidable (FirstConverged g) := by
  unfold FirstConverged; infer_instance

/-! Specification side for claim C3: the FIRST equations as an inductive
predicate (hence the least family satisfying them), nullability as the
standard derives-empty relation, and a recursive description of membership
in `firsts` of a sequence. -/
/-- Membership in the sequence-FIRST computed by `firsts`: scan symbols left
to right, take non-EMPTY members of each FIRST, continue only while EMPTY is
a member, and yield EMPTY when the scan falls off the end. -/
def FirstsSeqMem (g : Grammar) (fs : Nat → SymSet) (x : Nat) : List Nat → Prop
  | [] => x = g.emptyIndex
  | s :: rest =>
    (x ∈ fs s ∧ x ≠ g.emptyIndex) ∨ (g.emptyIndex ∈ fs s ∧ FirstsSeqMem g fs x rest)

/-- The FIRST equations of the spec, as an inductive (least) family:
`FirstIn g s x` says the equations force `x ∈ FIRST(s)`. -/
inductive FirstIn (g : Grammar) : Nat → Nat → Prop where
  | term : ∀ t, t < g.termCount → FirstIn g t t
  | emptySym : FirstIn g g.emptyIndex g.emptyIndex
  | ofProd : ∀ p, p ∈ g.productions → ∀ pre s post, p.rhs = pre ++ s :: post →
      (∀ u ∈ pre, FirstIn g u g.emptyIndex) → ∀ x, FirstIn g s x →
      x ≠ g.emptyIndex → FirstIn g (g.lhsSymbol p) x
  | prodEmpty : ∀ p, p ∈ g.productions → (∀ u ∈ p.rhs, FirstIn g u g.emptyIndex) →
      FirstIn g (g.lhsSymbol p) g.emptyIndex

/-- A symbol derives the empty string: EMPTY does, and a non-terminal does
when some production rewrites it to nullable symbols only. -/
inductive Nullable (g : Grammar) : Nat → Prop where
  | emptySym : Nullable g g.emptyIndex
  | ofProd : ∀ p, p ∈ g.productions → (∀ u ∈ p.rhs, Nullable g u) →
      Nullable g (g.lhsSymbol p)

/-! Lemmas relating the iterative computation of `first_sets` to the
inductive FIRST equations. -/
/-- Every member of every computed set is forced by the FIRST equations. -/
def FirstSound (g : Grammar) (fs : Nat → SymSet) : Prop :=
  ∀ s x, x ∈ fs s → FirstIn g s x

/-- The rule-2 scan over the RHS tail after one symbol: the elements added to
FOLLOW(rhs_symbol) (non-EMPTY members of the FIRSTs of the scanned tail
symbols) and the `break_out` flag (true when some scanned FIRST lacks
EMPTY). -/
def followAdds (g : Grammar) (first : Nat → SymSet) : List Nat → List Nat × Bool
  | [] => ([], false)
  | s :: rest =>
    let adds := (first s).filter (fun x => x ≠ g.emptyIndex)
    if g.emptyIndex ∈ first s then
      let more := followAdds g first rest
      (adds ++ more.1, more.2)
    else (adds, true)

/-- Pointwise update of a symbol-indexed family of sets (the effect of one
`follow_sets[rhs_symbol].extend(..)` statement on the `SymbolVec`). -/
def updateSet (fols : Nat → SymSet) (b : Nat) (v : SymSet) : Nat → SymSet :=
  fun s => if s = b then v else fols s

/-- Processing of one RHS position `(rhs_symbol, tail)` inside a pass:
rule 2 extends FOLLOW(rhs_symbol) with the scan's additions; when the scan
did not break out, rule 3 extends it with FOLLOW(lhs) (read after the rule-2
update, as the Rust code does); `additions` records growth. -/
def followPosStep (g : Grammar) (first : Nat → SymSet) (lhs : Nat)
    (st : (Nat → SymSet) × Bool) (pr : Nat × List Nat) : (Nat → SymSet) × Bool :=
  let fols := st.1
  let b := pr.1
  let elements := (fols b).length
  let scan := followAdds g first pr.2
  let fols1 := updateSet fols b ((fols b).extendSet scan.1)
  let fols2 :=
    if scan.2 then fols1
    else updateSet fols1 b ((fols1 b).extendSet (fols1 lhs))
  (fols2, st.2 || decide (elements < (fols2 b).length))

/-- The `(rhs[idx], rhs[idx+1..])` pairs the inner `for idx` loop visits. -/
def suffixPairs : List Nat → List (Nat × List Nat)
  | [] => []
  | s :: rest => (s, rest) :: suffixPairs rest

def followProdStep (g : Grammar) (first : Nat → SymSet)
    (st : (Nat → SymSet) × Bool) (p : Production) : (Nat → SymSet) × Bool :=
  (suffixPairs p.rhs).foldl (followPosStep g first (g.lhsSymbol p)) st

def followPass (g : Grammar) (first : Nat → SymSet) (fols : Nat → SymSet) :
    (Nat → SymSet) × Bool :=
  g.productions.foldl (followProdStep g first) (fols, false)

def followIter (g : Grammar) (first : Nat → SymSet) :
    Nat → (Nat → SymSet) → Nat → SymSet
  | 0, fols => fols
  | fuel + 1, fols =>
    let st := followPass g first fols
    if st.2 then followIter g first fuel st.1 else st.1

/-- Rule 1: STOP is placed in FOLLOW(start) before the loop. -/
def followInit (g : Grammar) : Nat → SymSet := fun s =>
  if s = g.startIndex then [g.stopIndex] else []

def followFuel (g : Grammar) : Nat := (g.symbolCount + 1) * (g.symbolCount + 1)

def follow_sets (g : Grammar) (first : Nat → SymSet) : Nat → SymSet :=
  followIter g first (followFuel g) (followInit g)

/-- Convergence of the FOLLOW loop, as guaranteed by the Rust exit condition. -/
def FollowConverged (g : Grammar) (first : Nat → SymSet) : Prop :=
  (followPass g first (follow_sets g first)).2 = false

instance (g : Grammar) (first : Nat → SymSet) : Decidable (FollowConverged g first) := by
  unfold FollowConverged; infer_instance

/-! Model of `check_empty_sets` (`src/table.rs:192-204`) and
`calculate_lr_tables` (`src/table.rs:149-187`).  `check_empty_sets` walks
the FIRST sets in symbol-index order and `panic!`s at the first empty one,
naming the symbol; `calculate_lr_tables` returns `()` (it has no error
channel) and its state loop unconditionally reaches the `todo!()` at the end
of `closure`.  A `panic!`/`todo!` aborts the process; we record it as an
explicit outcome value. -/
inductive PanicReason where
  /-- The `panic!("First set empty for grammar symbol …")` of
  `check_empty_sets`, carrying the index of the offending symbol whose name
  the Rust message prints. -/
  | emptyFirstSet (symbol : Nat)
  /-- The `todo!()` that ends `closure`. -/
  | closureTodo
  deriving DecidableEq, Repr

/-- Outcome of running `calculate_lr_tables`: the function either returns
`()` or the process halts in a panic. -/
inductive TableOutcome where
  | returned
  | panicked (reason : PanicReason)
  deriving DecidableEq, Repr

/-- Model of `check_empty_sets`: `none` when every symbol's FIRST set is
non-empty, otherwise the first (lowest-index) symbol with an empty FIRST
set, at which the Rust code panics. -/
def check_empty_sets (g : Grammar) (fs : Nat → SymSet) : Option Nat :=
  (List.range g.symbolCount).find? (fun i => (fs i).isEmpty)

/-- Model of `calculate_lr_tables`: computes the FIRST sets, panics in
`check_empty_sets` if one is empty, otherwise computes FOLLOW sets and
enters the state loop, whose first `closure` call ends in `todo!()`. -/
def calculate_lr_tables (g : Grammar) : TableOutcome :=
  let fs := first_sets g
  match check_empty_sets g fs with
  | some i => .panicked (.emptyFirstSet i)
  | none =>
    let _fols := follow_sets g fs
    .panicked .closureTodo

/-! Model of the `create_index!` macro (`rustemort/src/index.rs`): all five
index newtypes (StateIndex, ProdIndex, TermIndex, NonTermIndex, SymbolIndex)
wrap a `usize`; `Default` is `usize::MAX`, and the generated collections'
`get` delegates to `Vec::get`, which is `List.get?` on the model (the code
targets 64-bit `usize`). -/
def usizeMax : Nat := 2 ^ 64 - 1

/-- Model of the `Default` impl generated by `create_index!`. -/
def indexDefault : Nat := usizeMax

/-- Model of the generated collections' `get` (`Vec::get` by the wrapped
index). -/
def indexVecGet {α : Type} (v : List α) (i : Nat) : Option α := v.get? i

/-! Concrete grammars used as witnesses and counterexamples. -/
/-- The expression grammar of the tests in `src/table.rs`
(`E: T Ep; Ep: "+" T Ep | EMPTY; T: F Tp; Tp: "*" F Tp | EMPTY;
F: "(" E ")" | "id";`), encoded with dense symbol indices:
terminals 0 STOP, 1 `+`, 2 `*`, 3 `(`, 4 `)`, 5 `id`;
non-terminals 6 EMPTY, 7 AUG, 8 E, 9 Ep, 10 T, 11 Tp, 12 F.
Production 0 is the augmented start AUG → E. -/
def g8 : Grammar :=
  { termCount := 6, nontermCount := 7, emptyIndex := 6, startIndex := 7,
    stopIndex := 0,
    productions :=
      [⟨1, [8]⟩,
       ⟨2, [10, 9]⟩,
       ⟨3, [1, 10, 9]⟩,
       ⟨3, [6]⟩,
       ⟨4, [12, 11]⟩,
       ⟨5, [2, 12, 11]⟩,
       ⟨5, [6]⟩,
       ⟨6, [3, 8, 4]⟩,
       ⟨6, [5]⟩] }

/-- A left-infinite grammar `A: A;`: terminals 0 STOP; non-terminals
1 EMPTY, 2 AUG, 3 A; productions AUG → A, A → A.  The FIRST sets of AUG and
A stay empty. -/
def gInf : Grammar :=
  { termCount := 1, nontermCount := 3, emptyIndex := 1, startIndex := 2,
    stopIndex := 0,
    productions := [⟨1, [3]⟩, ⟨2, [3]⟩] }

/-!
Model of the RNGLR runtime (`rustemo/src/glr/parser.rs`).

The Rust code is generic over the state (`S`), token-kind (`TK`),
production (`P`) and non-terminal-kind (`NTK`) types; all of these are
generated `Copy + Ord` enums convertible to `usize`, and the embedding
instantiates them with `Nat` (`TK::default()`, the STOP kind, is 0).
The lexer (`L::next_tokens`), the layout sub-parser
(`LRParser::parse_with_context`), and `Input::location_after` live outside
the staged sources and are taken as function parameters carried in the
`GlrParser` record, mirroring the trait objects of the Rust structure.

The GSS (`glr/gss.rs` is not among the staged sources) is modelled from the
spec and from its use sites: heads and edges live in append-only stores
addressed by index (petgraph `NodeIndex`/`EdgeIndex`); every edge carries a
reference-counted `Parent` whose possibility list holds the packed SPPF
nodes.  `Rc<Parent>` sharing (head splitting copies parent references, and
SPPF children reference the same parents as the edges) is kept faithful by
storing `Parent`s in their own store and referencing them by index; interior
mutability (`RefCell`) becomes in-place store updates.
-/
/-- Model of `Token` (`lexer.rs` is outside the staged sources; the fields
are the ones glr/parser.rs uses): kind (`TK`, whose `Default` is STOP = 0),
the matched slice of input, and its location, collapsed to a `Nat`. -/
structure Token where
  kind : Nat
  value : String
  location : Nat
  deriving DecidableEq, Repr

instance : Inhabited Token := ⟨⟨0, "", 0⟩⟩

/-- Modelled from the spec: `GssHead` (gss.rs), the mutable parse context of
one GSS node — LR state, frontier index, input positions around the
consumed/ahead token, locations (collapsed to `Nat`), the lookahead token
and the layout consumed before it.  The field list follows the
`GssHead::new` call in `shifter` and the accessors used by glr/parser.rs. -/
structure GssHead where
  state : Nat
  frontier : Nat
  position : Nat
  rangeStart : Nat
  rangeEnd : Nat
  location : Nat
  positionBefore : Nat
  positionAhead : Nat
  locationPosBefore : Nat
  locationPosAhead : Nat
  tokenAhead : Option Token
  layoutAhead : Option String
  deriving DecidableEq, Repr

instance : Inhabited GssHead :=
  ⟨⟨0, 0, 0, 0, 0, 0, 0, 0, 0, 0, none, none⟩⟩

/-- Model of `GssHead::with_tok`: the same context with a new lookahead. -/
def GssHead.with_tok (h : GssHead) (t : Token) : GssHead :=
  { h with tokenAhead := some t }

/-- Model of `GssHead::with_tok_state`. -/
def GssHead.with_tok_state (h : GssHead) (t : Token) (s : Nat) : GssHead :=
  { h with tokenAhead := some t, state := s }

/-- Model of `TreeData`: the range, location and layout attached to an SPPF
node. -/
structure TreeData where
  rangeStart : Nat
  rangeEnd : Nat
  locStart : Nat
  locEnd : Option Nat
  layout : Option String
  deriving DecidableEq, Repr

/-- Model of `SPPFTree`: a Terminal node carrying its token, or a
NonTerminal node carrying the production, tree data and the children —
references (by store index) to the `Rc<Parent>` links of the reduction path
(`RefCell<VecDeque<Rc<Parent>>>`). -/
inductive SPPFTree where
  | term (token : Token) (data : TreeData)
  | nonTerm (prod : Nat) (data : TreeData) (children : List Nat)
  deriving DecidableEq, Repr

/-- Modelled from the spec: `Parent` (gss.rs) — one GSS edge's payload: the
two endpoints and the packed possibility list
(`RefCell<Vec<Rc<SPPFTree>>>`). -/
structure Parent where
  rootNode : Nat
  headNode : Nat
  possibilities : List SPPFTree
  deriving DecidableEq, Repr

instance : Inhabited Parent := ⟨⟨0, 0, []⟩⟩

/-- A GSS edge: source (the newer head), target (the older head) and the
index of its shared `Parent` in the parent store. -/
structure GssEdge where
  source : Nat
  target : Nat
  parent : Nat
  deriving DecidableEq, Repr

instance : Inhabited GssEdge := ⟨⟨0, 0, 0⟩⟩

/-- Modelled from the spec: `GssGraph` (gss.rs), a stable directed graph of
heads with parent-carrying edges.  Stores are append-only; indices are
stable (petgraph `StableDiGraph`). -/
structure GssGraph where
  heads : List GssHead
  parents : List Parent
  edges : List GssEdge
  deriving DecidableEq, Repr

def GssGraph.empty : GssGraph := ⟨[], [], []⟩

def GssGraph.addHead (gss : GssGraph) (h : GssHead) : GssGraph × Nat :=
  ({ gss with heads := gss.heads ++ [h] }, gss.heads.length)

def GssGraph.headAt (gss : GssGraph) (i : Nat) : GssHead :=
  gss.heads.getD i default

def GssGraph.setHead (gss : GssGraph) (i : Nat) (h : GssHead) : GssGraph :=
  { gss with heads := gss.heads.set i h }

def GssGraph.parentAt (gss : GssGraph) (i : Nat) : Parent :=
  gss.parents.getD i default

def GssGraph.setParent (gss : GssGraph) (i : Nat) (p : Parent) : GssGraph :=
  { gss with parents := gss.parents.set i p }

def GssGraph.edgeAt (gss : GssGraph) (e : Nat) : GssEdge :=
  gss.edges.getD e default

/-- Model of `GssGraph::start`: the source head of an edge. -/
def GssGraph.startOf (gss : GssGraph) (e : Nat) : Nat := (gss.edgeAt e).source

/-- Model of `GssGraph::end`: the target head of an edge. -/
def GssGraph.endOf (gss : GssGraph) (e : Nat) : Nat := (gss.edgeAt e).target

/-- Model of `GssGraph::backedges`: the indices of the edges leaving `h`
(the parent links).  petgraph iterates outgoing edges most-recent-first. -/
def GssGraph.backedges (gss : GssGraph) (h : Nat) : List Nat :=
  ((List.range gss.edges.length).filter
    (fun e => (gss.edgeAt e).source == h)).reverse

/-- Model of `GssGraph::edge_between`. -/
def GssGraph.edgeBetween (gss : GssGraph) (src tgt : Nat) : Option Nat :=
  (List.range gss.edges.length).find?
    (fun e => ((gss.edgeAt e).source == src) && ((gss.edgeAt e).target == tgt))

/-- Model of `GssGraph::add_parent` as called by the reducer, with a freshly
allocated `Rc<Parent>`: store the parent and add the edge, returning the new
edge's index. -/
def GssGraph.addParentNew (gss : GssGraph) (src tgt : Nat) (p : Parent) :
    GssGraph × Nat :=
  ({ gss with
      parents := gss.parents ++ [p]
      edges := gss.edges ++ [⟨src, tgt, gss.parents.length⟩] },
   gss.edges.length)

/-- Model of `GssGraph::add_parent` as called by `head_for_lookahead`, with
an `Rc::clone` of an existing `Parent`: add an edge sharing the stored
parent. -/
def GssGraph.addParentShared (gss : GssGraph) (src tgt pi : Nat) :
    GssGraph × Nat :=
  ({ gss with edges := gss.edges ++ [⟨src, tgt, pi⟩] }, gss.edges.length)

/-- Modelled from the spec: `GssGraph::add_solution` (gss.rs) — add an edge
from the shifted head to the old head carrying a single SPPF possibility. -/
def GssGraph.addSolution (gss : GssGraph) (head old : Nat) (tree : SPPFTree) :
    GssGraph :=
  (gss.addParentNew head old ⟨old, head, [tree]⟩).1

/-- Model of `Action` (`lr/parser.rs` is outside the staged sources; these
are the variants glr/parser.rs matches on). -/
inductive Action where
  | shift (state : Nat)
  | reduce (production : Nat) (length : Nat)
  | accept
  | error
  deriving DecidableEq, Repr

/-- Model of the `ParserDefinition` trait as used by glr/parser.rs, plus the
`P : Into<NTK>` conversion used in `definition.goto(state, prod.into())`. -/
structure ParserDefinition where
  actions : Nat → Nat → List Action
  goto : Nat → Nat → Nat
  expectedTokenKinds : Nat → List (Option Nat)
  prodNonterm : Nat → Nat

/-- Model of `BTreeMap<Nat, α>`: an association list kept sorted by key, so
that iteration (`values`) follows key order as `BTreeMap`'s does. -/
def NatMap (α : Type) : Type := List (Nat × α)

instance {α : Type} [DecidableEq α] : DecidableEq (NatMap α) := by
  unfold NatMap; infer_instance

instance {α : Type} [Repr α] : Repr (NatMap α) := by
  unfold NatMap; infer_instance

def NatMap.empty {α : Type} : NatMap α := []

def NatMap.find? {α : Type} : NatMap α → Nat → Option α
  | [], _ => none
  | (k, v) :: rest, key => if key = k then some v else NatMap.find? rest key

def NatMap.insert {α : Type} : NatMap α → Nat → α → NatMap α
  | [], key, v => [(key, v)]
  | (k, v0) :: rest, key, v =>
    if key < k then (key, v) :: (k, v0) :: rest
    else if key = k then (key, v) :: rest
    else (k, v0) :: NatMap.insert rest key v

def NatMap.values {α : Type} (m : NatMap α) : List α :=
  List.map (fun kv => kv.2) (m : List (Nat × α))

def NatMap.isEmpty {α : Type} (m : NatMap α) : Bool :=
  List.isEmpty (m : List (Nat × α))

/-- Model of `GlrParser`: the static definition, option flags, and the
external collaborators (lexer, layout sub-parser, `Input::location_after`)
that are generic parameters or separate modules in the Rust code.  The
layout parser exists exactly when `has_layout` is set; `default_layout`
models `S::default_layout()`. -/
structure GlrParser where
  definition : ParserDefinition
  file_name : String
  partial_parse : Bool
  start_position : Nat
  has_layout : Bool
  lexer : GssHead → String → List (Option Nat) → List Token
  layout_parse : GssHead → String → GssHead × Option (Option String)
  default_layout : Option Nat
  location_after : String → Nat → Nat

/-- The (at most one) layout-parsing attempt of `find_lookaheads`
(glr/parser.rs:336-356): run the Layout LR parser with the head's state
swapped to the layout start state, restore the state, and on a non-empty
consumed layout record it and ask the lexer again. -/
def layoutAttemptWith (p : GlrParser) (input : String)
    (expected : List (Option Nat)) (saved : Nat)
    (lp : GssHead × Option (Option String)) : GssHead × List Token :=
  let h3 := { lp.1 with state := saved }
  match lp.2 with
  | some (some layout) =>
    if 0 < layout.length then
      let h4 := { h3 with layoutAhead := some layout }
      (h4, p.lexer h4 input expected)
    else (h3, [])
  | _ => (h3, [])

def layoutAttempt (p : GlrParser) (input : String)
    (expected : List (Option Nat)) (h : GssHead) : GssHead × List Token :=
  if p.has_layout then
    layoutAttemptWith p input expected h.state
      (p.layout_parse { h with state := p.default_layout.getD 0 } input)
  else (h, [])

/-- The tail of `find_lookaheads` (glr/parser.rs:360-373): when the loop
produced no token, partial-parse mode yields a single STOP token with an
empty value if STOP is expected; otherwise the list stays empty. -/
def lookaheadFallback (p : GlrParser) (expected : List (Option Nat))
    (h : GssHead) (tokens : List Token) : List Token :=
  if tokens.isEmpty then
    if p.partial_parse && expected.any (fun o => o == some 0) then
      [{ kind := 0, value := "", location := h.location }]
    else []
  else tokens

/-- Model of `GlrParser::find_lookaheads` (glr/parser.rs:317-374): ask the
lexer; on an empty answer make the (at most one) layout attempt; finally
apply the partial-parse STOP fallback.  The head (mutated through
`head_mut` in Rust) is written back into the GSS.  The layout `Result` is
collapsed to `Option (Option String)` (`none` = `Err`). -/
def find_lookaheads (p : GlrParser) (gss : GssGraph) (head : Nat)
    (input : String) : GssGraph × List Token :=
  let h := gss.headAt head
  let expected := p.definition.expectedTokenKinds h.state
  let tokens := p.lexer h input expected
  let afterLoop : GssHead × List Token :=
    if tokens.isEmpty then layoutAttempt p input expected h else (h, tokens)
  (gss.setHead head afterLoop.1,
   lookaheadFallback p expected afterLoop.1 afterLoop.2)

/-- Model of `GlrParser::head_for_lookahead` (glr/parser.rs:378-397): clone
the head with the given lookahead and copy all its parent edges, sharing the
`Rc<Parent>` payloads. -/
def head_for_lookahead (gss : GssGraph) (head_idx : Nat) (lookahead : Token) :
    GssGraph × Nat :=
  let head := gss.headAt head_idx
  let added := gss.addHead (head.with_tok lookahead)
  let gss1 := added.1
  let new_head := added.2
  let new_parents := (gss1.backedges head_idx).map
    (fun e => ((gss1.edgeAt e).target, (gss1.edgeAt e).parent))
  (new_parents.foldl
    (fun g pr => (GssGraph.addParentShared g new_head pr.1 pr.2).1) gss1,
   new_head)

/-- Helper for the frontier map `BTreeMap<TK, BTreeMap<S, NodeIndex>>`:
`frontier.entry(tk).or_default().insert(state, head)`. -/
def frontierInsert (f : NatMap (NatMap Nat)) (tk s idx : Nat) :
    NatMap (NatMap Nat) :=
  f.insert tk (((f.find? tk).getD NatMap.empty).insert s idx)

/-- Model of `GlrParser::create_frontier` (glr/parser.rs:262-310): for each
base head, find its lookaheads when it has none (a head that yields no token
is killed); `Vec::pop` takes the LAST token for the existing head, and every
remaining token spawns a cloned head (lexical ambiguity). -/
def create_frontier (p : GlrParser) (gss : GssGraph)
    (frontier_base : NatMap Nat) (input : String) :
    GssGraph × NatMap (NatMap Nat) :=
  frontier_base.values.foldl
    (fun acc head_idx =>
      let gss := acc.1
      let frontier := acc.2
      let head := gss.headAt head_idx
      match head.tokenAhead with
      | some token =>
        (gss, frontierInsert frontier token.kind head.state head_idx)
      | none =>
        let fl := find_lookaheads p gss head_idx input
        let gss1 := fl.1
        let lookahead_tokens := fl.2
        match lookahead_tokens.getLast? with
        | some token =>
          let head1 := gss1.headAt head_idx
          let gss2 := gss1.setHead head_idx { head1 with tokenAhead := some token }
          let state := head1.state
          let frontier1 := frontierInsert frontier token.kind state head_idx
          (lookahead_tokens.dropLast.foldl
            (fun acc2 lookahead =>
              let hl := head_for_lookahead acc2.1 head_idx lookahead
              (hl.1, frontierInsert acc2.2 lookahead.kind state hl.2))
            (gss2, frontier1))
        | none => (gss1, frontier))
    (gss, NatMap.empty)

/-- The start of a pending reduction (`ReductionStart`): the head itself for
length 0, the first edge of the path otherwise. -/
inductive ReductionStart where
  | edge (e : Nat)
  | node (n : Nat)
  deriving DecidableEq, Repr

/-- Model of `Reduction`: a pending reduction. -/
structure Reduction where
  start : ReductionStart
  production : Nat
  length : Nat
  deriving DecidableEq, Repr

/-- Model of `ReductionPath`: the parent links along the path (indices into
the parent store, front first) and the root head. -/
structure ReductionPath where
  parents : List Nat
  root_head : Nat
  deriving DecidableEq, Repr

/-- Model of `GlrParser::initial_process_frontier` (glr/parser.rs:179-254):
for every head of every sub-frontier (token-kind order, then state order),
enumerate the ACTIONs for its lookahead — the `Error` sentinel stops the
scan — queueing reductions (per back-edge when the length is positive),
shifts, and accepted heads. -/
def initial_process_frontier (p : GlrParser) (gss : GssGraph)
    (frontier : NatMap (NatMap Nat))
    (pending_reductions : List Reduction)
    (pending_shifts : List (Nat × Nat))
    (accepted_heads : List Nat) :
    List Reduction × List (Nat × Nat) × List Nat :=
  frontier.values.foldl
    (fun acc subfrontier =>
      ((subfrontier : List (Nat × Nat)).foldl
        (fun acc2 sh =>
          let state := sh.1
          let head := sh.2
          let kind := ((gss.headAt head).tokenAhead.getD default).kind
          ((p.definition.actions state kind).takeWhile
              (fun a => !(a == Action.error))).foldl
            (fun acc3 a =>
              match a with
              | Action.reduce prod length =>
                if length = 0 then
                  (acc3.1 ++ [⟨ReductionStart.node head, prod, length⟩],
                   acc3.2.1, acc3.2.2)
                else
                  (acc3.1 ++ (gss.backedges head).map
                      (fun e => ⟨ReductionStart.edge e, prod, length⟩),
                   acc3.2.1, acc3.2.2)
              | Action.shift s => (acc3.1, acc3.2.1 ++ [(head, s)], acc3.2.2)
              | Action.accept => (acc3.1, acc3.2.1, acc3.2.2 ++ [head])
              | Action.error => acc3)
            acc2)
        acc))
    (pending_reductions, pending_shifts, accepted_heads)

/-- The working state of the reducer: the GSS, the sub-frontier map
(state → head), and the three work lists owned by the parse loop. -/
structure ReducerState where
  gss : GssGraph
  subfrontier : NatMap Nat
  pending_reductions : List Reduction
  pending_shifts : List (Nat × Nat)
  accepted_heads : List Nat
  deriving Repr

/-- The SPPF NonTerminal node the reducer builds for one reduction path
(glr/parser.rs:585-599). -/
def reduceSolution (gss : GssGraph) (start_head : Nat) (production : Nat)
    (path : ReductionPath) : SPPFTree :=
  let root_head := gss.headAt path.root_head
  let start_h := gss.headAt start_head
  SPPFTree.nonTerm production
    { rangeStart := root_head.positionAhead,
      rangeEnd := start_h.positionBefore,
      locStart := root_head.locationPosAhead,
      locEnd := some start_h.locationPosBefore,
      layout := root_head.layoutAhead }
    path.parents

/-- The in-place children replacement of glr/parser.rs:553-571: scan the
possibility list in order and replace the children of the first NonTerminal
with the same production whose children list is strictly shorter than the
new path, then stop (`break`); leave everything else unchanged. -/
def replaceFirstLonger (production : Nat) (parents : List Nat) :
    List SPPFTree → List SPPFTree
  | [] => []
  | t :: rest =>
    match t with
    | SPPFTree.nonTerm prod data children =>
      if prod = production ∧ children.length < parents.length then
        SPPFTree.nonTerm prod data parents :: rest
      else t :: replaceFirstLonger production parents rest
    | _ => t :: replaceFirstLonger production parents rest

/-- Registration of one follow-up action after a new solution
(glr/parser.rs:606-673).  Reductions are queued when the head is new, or the
edge is new and the length positive; shifts and accepts only when the head
is new.  The `Action::Error` arm is unreachable (the list is the `take_while`
prefix without `Error`); the Rust code panics there. -/
def registerAction (edge head : Nat) (edge_created head_created : Bool)
    (st : ReducerState) (a : Action) : ReducerState :=
  match a with
  | Action.reduce production length =>
    if (edge_created && decide (0 < length)) || head_created then
      { st with pending_reductions := st.pending_reductions ++
          [{ start := if 0 < length then ReductionStart.edge edge
                      else ReductionStart.node head,
             production := production, length := length }] }
    else st
  | Action.shift s =>
    if head_created then
      { st with pending_shifts := st.pending_shifts ++ [(head, s)] }
    else st
  | Action.accept =>
    if head_created then
      { st with accepted_heads := st.accepted_heads ++ [head] }
    else st
  | Action.error => st

/-- The `Find a head with the same state or create new` block of the
reducer (glr/parser.rs:463-495): the head index, whether it was created, the
(possibly extended) GSS and sub-frontier. -/
def reduceFindHead (st : ReducerState) (start_head next_state : Nat) :
    Nat × Bool × GssGraph × NatMap Nat :=
  match st.subfrontier.find? next_state with
  | some h => (h, false, st.gss, st.subfrontier)
  | none =>
    let shead := st.gss.headAt start_head
    let new_head := shead.with_tok_state (shead.tokenAhead.getD default)
      next_state
    let added := st.gss.addHead new_head
    (added.2, true, added.1, st.subfrontier.insert next_state added.2)

/-- The `Find an edge between the head and the root_head or create new`
block of the reducer (glr/parser.rs:497-527). -/
def reduceFindEdge (gss1 : GssGraph) (head root : Nat) :
    Nat × Bool × GssGraph :=
  match gss1.edgeBetween head root with
  | some e => (e, false, gss1)
  | none =>
    let addedE := gss1.addParentNew head root ⟨root, head, []⟩
    (addedE.2, true, addedE.1)

/-- Model of the body of `for path in self.find_reduction_paths(..)` inside
`GlrParser::reducer` (glr/parser.rs:443-676): compute the GOTO target and
its non-error actions; if there are none the path is skipped.  Otherwise
find or create the sub-frontier head and the edge to the path's root; a
solution is new when the head or edge is new, or when every existing
possibility is a NonTerminal whose production differs or whose children
count equals the path length — then the packed node is appended and
follow-up actions registered; otherwise the children of an existing
same-production possibility are replaced in place when the new path is
longer. -/
def reduceOnePath (p : GlrParser) (start_head : Nat) (production : Nat)
    (path : ReductionPath) (st : ReducerState) : ReducerState :=
  let token_kind_ahead :=
    ((st.gss.headAt start_head).tokenAhead.getD default).kind
  let root_state := (st.gss.headAt path.root_head).state
  let next_state := p.definition.goto root_state
    (p.definition.prodNonterm production)
  let actions := (p.definition.actions next_state token_kind_ahead).takeWhile
    (fun a => !(a == Action.error))
  if actions.isEmpty then st
  else
    let found := reduceFindHead st start_head next_state
    let head := found.1
    let head_created := found.2.1
    let gss1 := found.2.2.1
    let subfrontier1 := found.2.2.2
    let efound := reduceFindEdge gss1 head path.root_head
    let edge := efound.1
    let edge_created := efound.2.1
    let gss2 := efound.2.2
    let pi := (gss2.edgeAt edge).parent
    let is_new_solution := head_created || edge_created ||
      (gss2.parentAt pi).possibilities.all
        (fun t => match t with
          | SPPFTree.term _ _ => false
          | SPPFTree.nonTerm prod _ children =>
            prod != production || (path.parents.length == children.length))
    if !is_new_solution then
      let par := gss2.parentAt pi
      { st with
        gss := gss2.setParent pi
          { par with possibilities :=
              replaceFirstLonger production path.parents par.possibilities },
        subfrontier := subfrontier1 }
    else
      let solution := reduceSolution gss2 start_head production path
      let par := gss2.parentAt pi
      let gss3 := gss2.setParent pi
        { par with possibilities := par.possibilities ++ [solution] }
      actions.foldl (registerAction edge head edge_created head_created)
        { st with gss := gss3, subfrontier := subfrontier1 }

/-- One pending path of the backward BFS of `find_reduction_paths`. -/
structure PendingPath where
  current_root : Nat
  left_to_go : Nat
  parents : List Nat
  deriving DecidableEq, Repr

/-- The BFS queue loop of `GlrParser::find_reduction_paths`
(glr/parser.rs:832-853), with explicit fuel (each expansion strictly
decreases `left_to_go`, so the Rust loop terminates). -/
def findPathsLoop (gss : GssGraph) :
    Nat → List PendingPath → List ReductionPath → List ReductionPath
  | 0, _, acc => acc
  | _ + 1, [], acc => acc
  | fuel + 1, pp :: rest, acc =>
    if 0 < pp.left_to_go then
      findPathsLoop gss fuel
        (rest ++ (gss.backedges pp.current_root).map
          (fun e => { current_root := (gss.edgeAt e).target,
                      left_to_go := pp.left_to_go - 1,
                      parents := (gss.edgeAt e).parent :: pp.parents }))
        acc
    else
      findPathsLoop gss fuel rest (acc ++ [⟨pp.parents, pp.current_root⟩])

/-- Model of `GlrParser::find_reduction_paths` (glr/parser.rs:774-861). -/
def find_reduction_paths (gss : GssGraph) (reduction : Reduction)
    (fuel : Nat) : List ReductionPath :=
  match reduction.start with
  | ReductionStart.node head => [⟨[], head⟩]
  | ReductionStart.edge start_edge =>
    findPathsLoop gss fuel
      [{ current_root := gss.endOf start_edge,
         left_to_go := reduction.length - 1,
         parents := [(gss.edgeAt start_edge).parent] }]
      []

/-- Model of `GlrParser::reducer` (glr/parser.rs:402-678): drain the pending
reduction queue (FIFO), processing every reduction path of each entry; fuel
makes the loop total (the RNGLR dedup rules bound it in Rust). -/
def reducerLoop (p : GlrParser) : Nat → ReducerState → Option ReducerState
  | 0, st => if st.pending_reductions.isEmpty then some st else none
  | fuel + 1, st =>
    match st.pending_reductions with
    | [] => some st
    | reduction :: rest =>
      let start_head :=
        match reduction.start with
        | ReductionStart.edge e => st.gss.startOf e
        | ReductionStart.node n => n
      let paths := find_reduction_paths st.gss reduction (reduction.length + 1)
      let st2 := paths.foldl
        (fun s path => reduceOnePath p start_head reduction.production path s)
        { st with pending_reductions := rest }
      reducerLoop p fuel st2

/-- The shifted position of a pending shift (`head.position() +
token.value.len()`, glr/parser.rs:704). -/
def shiftPos (gss : GssGraph) (head_idx : Nat) : Nat :=
  (gss.headAt head_idx).position +
    ((gss.headAt head_idx).tokenAhead.getD default).value.length

/-- The single Terminal SPPF possibility the shifter attaches for a consumed
token (glr/parser.rs:755-766). -/
def termPossibility (tok : Token) : SPPFTree :=
  SPPFTree.term tok
    { rangeStart := 0, rangeEnd := 0, locStart := 0, locEnd := none,
      layout := none }

/-- The head `GssHead::new(..)` creates for a shift (glr/parser.rs:723-736). -/
def shiftNewHead (p : GlrParser) (frontier_idx : Nat) (gss : GssGraph)
    (head_idx state : Nat) : GssHead :=
  let head := gss.headAt head_idx
  let token := head.tokenAhead.getD default
  let position := head.position + token.value.length
  { state := state, frontier := frontier_idx, position := position,
    rangeStart := head.position, rangeEnd := position,
    location := p.location_after token.value head.location,
    positionBefore := position, positionAhead := position,
    locationPosBefore := 0, locationPosAhead := 0,
    tokenAhead := none, layoutAhead := none }

/-- Model of `GlrParser::shifter` (glr/parser.rs:681-770), processing the
pending shifts in `Vec::pop` order (last pushed first): compute the shifted
position, merge into the next frontier base by state (reuse or create), and
add the edge carrying the consumed token as a single Terminal possibility. -/
def shifterGo (p : GlrParser) (frontier_idx : Nat) :
    List (Nat × Nat) → GssGraph → NatMap Nat → GssGraph × NatMap Nat
  | [], gss, base => (gss, base)
  | (head_idx, state) :: rest, gss, base =>
    let token := (gss.headAt head_idx).tokenAhead.getD default
    let merged :=
      match base.find? state with
      | some sh => (sh, gss, base)
      | none =>
        let added := gss.addHead (shiftNewHead p frontier_idx gss head_idx state)
        (added.2, added.1, base.insert state added.2)
    let gss2 := GssGraph.addSolution merged.2.1 merged.1 head_idx
      (termPossibility token)
    shifterGo p frontier_idx rest gss2 merged.2.2

def shifter (p : GlrParser) (gss : GssGraph)
    (pending_shifts : List (Nat × Nat)) (frontier_idx : Nat) :
    GssGraph × NatMap Nat :=
  shifterGo p frontier_idx pending_shifts.reverse gss NatMap.empty

/-- Modelled from the spec: `Forest` (gss.rs) wraps the SPPF roots reachable
through the accepted heads' incoming edges. -/
structure Forest where
  results : List SPPFTree
  deriving DecidableEq, Repr

/-- Model of `GlrParser::create_forest` (glr/parser.rs:863-887). -/
def create_forest (gss : GssGraph) (accepted_heads : List Nat) : Forest :=
  ⟨accepted_heads.flatMap (fun head =>
    (gss.backedges head).flatMap (fun e =>
      (gss.parentAt (gss.edgeAt e).parent).possibilities))⟩

/-- Model of the library's error type (outside the staged sources);
`GlrParser::parse_with_context` never constructs one. -/
structure ParseError where
  message : String
  deriving DecidableEq, Repr

/-- The main loop of `GlrParser::parse_with_context`
(glr/parser.rs:949-977): while the frontier base is non-empty, create the
full frontier, seed the work lists, run the reducer on every sub-frontier
(token-kind order), and shift into the next frontier base.  Fuel makes the
loop total; `none` means the fuel ran out, never a parse error. -/
def glr_main_loop (p : GlrParser) (input : String) :
    Nat → Nat → GssGraph → NatMap Nat → List Nat →
    Option (GssGraph × List Nat)
  | 0, _, _, _, _ => none
  | fuel + 1, frontier_idx, gss, frontier_base, accepted_heads =>
    if frontier_base.isEmpty then some (gss, accepted_heads)
    else
      let cf := create_frontier p gss frontier_base input
      let gss1 := cf.1
      let frontier := cf.2
      let seeded := initial_process_frontier p gss1 frontier [] [] accepted_heads
      let st0 : ReducerState :=
        ⟨gss1, NatMap.empty, seeded.1, seeded.2.1, seeded.2.2⟩
      let reduced := frontier.values.foldl
        (fun acc sub =>
          match acc with
          | none => none
          | some st => reducerLoop p fuel { st with subfrontier := sub })
        (some st0)
      match reduced with
      | none => none
      | some stN =>
        let sh := shifter p stN.gss stN.pending_shifts (frontier_idx + 1)
        glr_main_loop p input fuel (frontier_idx + 1) sh.1 sh.2
          stN.accepted_heads

/-- Model of `GlrParser::parse_with_context` (glr/parser.rs:907-986): build
the GSS with the context as initial head, run the main loop, and wrap the
forest of the accepted heads in `Ok` — the function constructs no error
value. -/
def parse_with_context (p : GlrParser) (fuel : Nat) (context : GssHead)
    (input : String) : Option (Except ParseError Forest) :=
  let gss0 := GssGraph.empty.addHead context
  let frontier_base : NatMap Nat :=
    NatMap.empty.insert context.state gss0.2
  match glr_main_loop p input fuel 0 gss0.1 frontier_base [] with
  | none => none
  | some r => some (Except.ok (create_forest r.1 r.2))

/-- Model of `GlrParser::parse` (glr/parser.rs:901-905). -/
def parse (p : GlrParser) (fuel : Nat) (input : String) :
    Option (Except ParseError Forest) :=
  parse_with_context p fuel { (default : GssHead) with position := p.start_position }
    input

/-! Concrete GLR instances used as witnesses and counterexamples. -/
/-- A GLR parser whose lexer never yields a token and whose ACTION table is
empty: every head dies immediately. -/
def deadParser : GlrParser :=
  { definition :=
      { actions := fun _ _ => [], goto := fun _ _ => 0,
        expectedTokenKinds := fun _ => [some 0], prodNonterm := fun n => n },
    file_name := "<str>", partial_parse := false, start_position := 0,
    has_layout := false, lexer := fun _ _ _ => [],
    layout_parse := fun h _ => (h, none), default_layout := none,
    location_after := fun s l => l + s.length }

/-- `deadParser` with partial parsing enabled (STOP is among the expected
kinds of every state). -/
def stopParser : GlrParser := { deadParser with partial_parse := true }

/-- A one-head GSS for the lookahead witness. -/
def oneHeadGss : GssGraph := ⟨[default], [], []⟩

/-- Parser for the packed-node counterexample: GOTO is constantly 3, and
state 3 has a single Shift action on token kind 2. -/
def packParser : GlrParser :=
  { deadParser with
    definition :=
      { actions := fun s k => if s = 3 ∧ k = 2 then [Action.shift 9] else [],
        goto := fun _ _ => 3,
        expectedTokenKinds := fun _ => [], prodNonterm := fun n => n } }

def packTok : Token := ⟨2, "x", 0⟩

/-- A GSS with a root head 0 (state 5) and a sub-frontier head 1 (state 3,
lookahead kind 2) whose edge 1 → 0 already packs one NonTerminal possibility
for production 7 with a one-element children list. -/
def packGss : GssGraph :=
  { heads := [{ (default : GssHead) with state := 5 },
              { (default : GssHead) with
                  state := 3
                  tokenAhead := some packTok }],
    parents := [⟨0, 1, [SPPFTree.nonTerm 7 ⟨0, 0, 0, none, none⟩ [0]]⟩],
    edges := [⟨1, 0, 0⟩] }

def packSt : ReducerState :=
  ⟨packGss, NatMap.empty.insert 3 1, [], [], []⟩

/-- A reduction path of length 1 over the existing edge's parent. -/
def packPath : ReductionPath := ⟨[0], 0⟩

/-- A GSS with two heads at different positions whose lookahead tokens have
different lengths, both pending a shift to the same target state. -/
def shiftGss : GssGraph :=
  { heads := [{ (default : GssHead) with
                  position := 0
                  tokenAhead := some ⟨4, "a", 0⟩ },
              { (default : GssHead) with
                  position := 1
                  tokenAhead := some ⟨4, "bcd", 0⟩ }],
    parents := [], edges := [] }

theorem SymSet.mem_insertSym {s : SymSet} {x y : Nat} :
    y ∈ s.insertSym x ↔ y = x ∨ y ∈ s := by
  unfold SymSet.insertSym
  split <;> rename_i h
  · constructor
    · exact fun hy => Or.inr hy
    · rintro (rfl | hy) <;> [exact h; exact hy]
  · simp [List.mem_cons]

theorem SymSet.insertSym_of_mem {s : SymSet} {x : Nat} (h : x ∈ s) :
    s.insertSym x = s := by
  unfold SymSet.insertSym; simp [h]

theorem SymSet.mem_extendSet {s : SymSet} {xs : List Nat} {y : Nat} :
    y ∈ s.extendSet xs ↔ y ∈ xs ∨ y ∈ s := by
  induction xs generalizing s with
  | nil => simp [SymSet.extendSet]
  | cons x rest ih =>
    show y ∈ SymSet.extendSet (s.insertSym x) rest ↔ _
    rw [ih, SymSet.mem_insertSym]
    simp [List.mem_cons]
    tauto

theorem SymSet.length_le_extendSet (s : SymSet) (xs : List Nat) :
    s.length ≤ (s.extendSet xs).length := by
  induction xs generalizing s with
  | nil => exact Nat.le_refl _
  | cons x rest ih =>
    show s.length ≤ (SymSet.extendSet (s.insertSym x) rest).length
    refine Nat.le_trans ?_ (ih (s.insertSym x))
    unfold SymSet.insertSym
    split
    · exact Nat.le_refl _
    · exact Nat.le_succ _

theorem SymSet.extendSet_eq_of_subset {s : SymSet} {xs : List Nat}
    (h : ∀ x ∈ xs, x ∈ s) : s.extendSet xs = s := by
  induction xs with
  | nil => rfl
  | cons x rest ih =>
    show SymSet.extendSet (s.insertSym x) rest = s
    rw [SymSet.insertSym_of_mem (h x (List.mem_cons_self x rest))]
    exact ih fun y hy => h y (List.mem_cons_of_mem x hy)

theorem SymSet.length_lt_extendSet_of_not_subset {s : SymSet} {xs : List Nat}
    (h : ∃ x ∈ xs, x ∉ s) : s.length < (s.extendSet xs).length := by
  induction xs generalizing s with
  | nil => simp at h
  | cons x rest ih =>
    obtain ⟨w, hw, hws⟩ := h
    show s.length < (SymSet.extendSet (s.insertSym x) rest).length
    rcases List.mem_cons.mp hw with rfl | hwrest
    · have hx : s.insertSym w = w :: s := by unfold SymSet.insertSym; simp [hws]
      rw [hx]
      calc s.length < (w :: s).length := Nat.lt_succ_self _
        _ ≤ _ := SymSet.length_le_extendSet _ _
    · by_cases hx : x ∈ s
      · rw [SymSet.insertSym_of_mem hx]
        exact ih ⟨w, hwrest, hws⟩
      · have hx2 : s.insertSym x = x :: s := by unfold SymSet.insertSym; simp [hx]
        rw [hx2]
        calc s.length < (x :: s).length := Nat.lt_succ_self _
          _ ≤ _ := SymSet.length_le_extendSet _ _

theorem SymSet.extendSet_no_growth {s : SymSet} {xs : List Nat}
    (h : ¬ s.length < (s.extendSet xs).length) : ∀ x ∈ xs, x ∈ s := by
  by_contra hc
  push_neg at hc
  exact h (SymSet.length_lt_extendSet_of_not_subset hc)

theorem mem_firstsAux {g : Grammar} {fs : Nat → SymSet} {x : Nat}
    {xs : List Nat} {acc : SymSet} :
    x ∈ firstsAux g fs xs acc ↔ x ∈ acc ∨ FirstsSeqMem g fs x xs := by
  induction xs generalizing acc with
  | nil =>
    simp only [firstsAux, FirstsSeqMem, SymSet.mem_insertSym]
    tauto
  | cons s rest ih =>
    simp only [firstsAux, FirstsSeqMem]
    by_cases h : g.emptyIndex ∈ fs s
    · rw [if_pos h, ih]
      simp only [SymSet.mem_extendSet, List.mem_filter, decide_eq_true_eq]
      tauto
    · rw [if_neg h]
      simp only [SymSet.mem_extendSet, List.mem_filter, decide_eq_true_eq]
      tauto

theorem mem_firsts {g : Grammar} {fs : Nat → SymSet} {x : Nat} {xs : List Nat} :
    x ∈ firsts g fs xs ↔ FirstsSeqMem g fs x xs := by
  unfold firsts
  rw [mem_firstsAux]
  simp

theorem empty_mem_firsts {g : Grammar} {fs : Nat → SymSet} {xs : List Nat} :
    g.emptyIndex ∈ firsts g fs xs ↔ ∀ s ∈ xs, g.emptyIndex ∈ fs s := by
  rw [mem_firsts]
  induction xs with
  | nil => simp [FirstsSeqMem]
  | cons s rest ih =>
    simp only [FirstsSeqMem, List.mem_cons]
    constructor
    · rintro (⟨_, hne⟩ | ⟨hs, hrest⟩)
      · exact absurd rfl hne
      · rintro u (rfl | hu)
        · exact hs
        · exact (ih.mp hrest) u hu
    · intro h
      exact Or.inr ⟨h s (Or.inl rfl), ih.mpr fun u hu => h u (Or.inr hu)⟩

theorem firstsSeqMem_of_split {g : Grammar} {fs : Nat → SymSet} {x s : Nat}
    {pre post : List Nat} (hpre : ∀ u ∈ pre, g.emptyIndex ∈ fs u)
    (hx : x ∈ fs s) (hne : x ≠ g.emptyIndex) :
    FirstsSeqMem g fs x (pre ++ s :: post) := by
  induction pre with
  | nil => exact Or.inl ⟨hx, hne⟩
  | cons u rest ih =>
    exact Or.inr ⟨hpre u (List.mem_cons_self u rest),
      ih fun v hv => hpre v (List.mem_cons_of_mem u hv)⟩

theorem firstsSeqMem_elim {g : Grammar} {fs : Nat → SymSet} {x : Nat}
    {xs : List Nat} (h : FirstsSeqMem g fs x xs) (hne : x ≠ g.emptyIndex) :
    ∃ pre s post, xs = pre ++ s :: post ∧ (∀ u ∈ pre, g.emptyIndex ∈ fs u) ∧
      x ∈ fs s := by
  induction xs with
  | nil => exact absurd h hne
  | cons s rest ih =>
    rcases h with ⟨hx, _⟩ | ⟨hs, hrest⟩
    · exact ⟨[], s, rest, rfl, by simp, hx⟩
    · obtain ⟨pre, t, post, heq, hpre, hx⟩ := ih hrest
      refine ⟨s :: pre, t, post, by simp [heq], ?_, hx⟩
      intro u hu
      rcases List.mem_cons.mp hu with rfl | hu2
      · exact hs
      · exact hpre u hu2

theorem firstIn_empty_iff_nullable {g : Grammar} (hwf : g.wf) (s : Nat) :
    FirstIn g s g.emptyIndex ↔ Nullable g s := by
  constructor
  · intro h
    have aux : ∀ t x, FirstIn g t x → x = g.emptyIndex → Nullable g t := by
      intro t x h
      induction h with
      | term u hu =>
        intro he
        exact absurd (he ▸ hu) (Nat.not_lt.mpr hwf.1)
      | emptySym => exact fun _ => Nullable.emptySym
      | ofProd p hp pre u post hsplit hpre x hx hne ihpre ihx =>
        exact fun he => absurd he hne
      | prodEmpty p hp hall ih =>
        exact fun _ => Nullable.ofProd p hp fun u hu => ih u hu rfl
    exact aux s g.emptyIndex h rfl
  · intro h
    induction h with
    | emptySym => exact FirstIn.emptySym
    | ofProd p hp hall ih => exact FirstIn.prodEmpty p hp ih

theorem firstSound_init {g : Grammar} (hwf : g.wf) : FirstSound g (firstInit g) := by
  intro s x hx
  simp only [firstInit] at hx
  by_cases hse : s = g.emptyIndex
  · subst hse
    have hnt : ¬ g.emptyIndex < g.termCount := Nat.not_lt.mpr hwf.1
    rw [if_neg hnt, if_pos rfl] at hx
    rcases SymSet.mem_insertSym.mp hx with rfl | hf
    · exact FirstIn.emptySym
    · simp at hf
  · rw [if_neg hse] at hx
    by_cases hst : s < g.termCount
    · rw [if_pos hst] at hx
      rcases List.mem_singleton.mp hx with rfl
      exact FirstIn.term _ hst
    · rw [if_neg hst] at hx
      simp at hx

theorem firstSound_firsts {g : Grammar} {fs : Nat → SymSet}
    (hsound : FirstSound g fs) {p : Production} (hp : p ∈ g.productions) :
    ∀ x ∈ firsts g fs p.rhs, FirstIn g (g.lhsSymbol p) x := by
  intro x hx
  rw [mem_firsts] at hx
  by_cases hne : x = g.emptyIndex
  · subst hne
    have hall : ∀ s ∈ p.rhs, g.emptyIndex ∈ fs s :=
      empty_mem_firsts.mp (mem_firsts.mpr hx)
    exact FirstIn.prodEmpty p hp fun u hu => hsound u _ (hall u hu)
  · obtain ⟨pre, t, post, heq, hpre, hxt⟩ := firstsSeqMem_elim hx hne
    exact FirstIn.ofProd p hp pre t post heq
      (fun u hu => hsound u _ (hpre u hu)) x (hsound t x hxt) hne

theorem firstSound_passProd {g : Grammar} {fs : Nat → SymSet} {b : Bool}
    {p : Production} (hp : p ∈ g.productions) (hsound : FirstSound g fs) :
    FirstSound g (firstPassProd g (fs, b) p).1 := by
  intro s x hx
  simp only [firstPassProd] at hx
  by_cases he : s = g.lhsSymbol p
  · rw [if_pos he] at hx
    rcases SymSet.mem_extendSet.mp hx with hx1 | hx2
    · exact he ▸ firstSound_firsts hsound hp x hx1
    · exact he ▸ hsound _ x hx2
  · rw [if_neg he] at hx
    exact hsound s x hx

theorem firstSound_foldl {g : Grammar} (l : List Production)
    (hl : ∀ p ∈ l, p ∈ g.productions) :
    ∀ (fs : Nat → SymSet) (b : Bool), FirstSound g fs →
      FirstSound g (l.foldl (firstPassProd g) (fs, b)).1 := by
  induction l with
  | nil => intro fs b h; exact h
  | cons p rest ih =>
    intro fs b h
    have hstep := firstSound_passProd (b := b) (hl p (List.mem_cons_self p rest)) h
    have := ih (fun q hq => hl q (List.mem_cons_of_mem p hq))
      (firstPassProd g (fs, b) p).1 (firstPassProd g (fs, b) p).2 hstep
    simpa [List.foldl_cons] using this

theorem firstSound_iter {g : Grammar} : ∀ (fuel : Nat) (fs : Nat → SymSet),
    FirstSound g fs → FirstSound g (firstIter g fuel fs) := by
  intro fuel
  induction fuel with
  | zero => intro fs h; exact h
  | succ n ih =>
    intro fs h
    simp only [firstIter]
    have hpass : FirstSound g (firstPass g fs).1 :=
      firstSound_foldl g.productions (fun _ hp => hp) fs false h
    split
    · exact ih _ hpass
    · exact hpass

theorem first_sets_sound {g : Grammar} (hwf : g.wf) : FirstSound g (first_sets g) :=
  firstSound_iter _ _ (firstSound_init hwf)

/-! Preservation: a symbol that is no production's LHS keeps its initial set,
and the sets only ever grow. -/
theorem firstPassProd_apply_ne {g : Grammar} {st : (Nat → SymSet) × Bool}
    {p : Production} {s : Nat} (h : g.lhsSymbol p ≠ s) :
    (firstPassProd g st p).1 s = st.1 s := by
  simp only [firstPassProd]
  rw [if_neg fun hc => h hc.symm]

theorem firstFoldl_apply_ne {g : Grammar} {s : Nat} (l : List Production)
    (hl : ∀ p ∈ l, g.lhsSymbol p ≠ s) :
    ∀ st : (Nat → SymSet) × Bool, (l.foldl (firstPassProd g) st).1 s = st.1 s := by
  induction l with
  | nil => intro st; rfl
  | cons p rest ih =>
    intro st
    rw [List.foldl_cons, ih (fun q hq => hl q (List.mem_cons_of_mem p hq)),
      firstPassProd_apply_ne (hl p (List.mem_cons_self p rest))]

theorem firstIter_apply_ne {g : Grammar} {s : Nat}
    (hl : ∀ p ∈ g.productions, g.lhsSymbol p ≠ s) :
    ∀ (fuel : Nat) (fs : Nat → SymSet), firstIter g fuel fs s = fs s := by
  intro fuel
  induction fuel with
  | zero => intro fs; rfl
  | succ n ih =>
    intro fs
    simp only [firstIter]
    split
    · rw [ih]
      exact firstFoldl_apply_ne g.productions hl (fs, false)
    · exact firstFoldl_apply_ne g.productions hl (fs, false)

theorem first_sets_terminal {g : Grammar} (hwf : g.wf) {t : Nat}
    (ht : t < g.termCount) : first_sets g t = [t] := by
  unfold first_sets
  rw [firstIter_apply_ne (fun p _ => by
    unfold Grammar.lhsSymbol
    exact Nat.ne_of_gt (Nat.lt_of_lt_of_le ht (Nat.le_add_right _ _)))]
  simp only [firstInit]
  rw [if_neg (fun hc : t = g.emptyIndex => absurd (hc ▸ ht) (Nat.not_lt.mpr hwf.1)),
    if_pos ht]

theorem first_sets_empty_sym {g : Grammar} (hwf : g.wf) :
    first_sets g g.emptyIndex = [g.emptyIndex] := by
  unfold first_sets
  rw [firstIter_apply_ne (fun p hp => hwf.2 p hp)]
  have hnt := Nat.not_lt.mpr hwf.1
  simp [firstInit, SymSet.insertSym, hnt]

theorem firstPassProd_mono {g : Grammar} {st : (Nat → SymSet) × Bool}
    {p : Production} {s x : Nat} (h : x ∈ st.1 s) :
    x ∈ (firstPassProd g st p).1 s := by
  simp only [firstPassProd]
  by_cases he : s = g.lhsSymbol p
  · rw [if_pos he]
    exact SymSet.mem_extendSet.mpr (Or.inr (he ▸ h))
  · rw [if_neg he]
    exact h

theorem firstFoldl_mono {g : Grammar} {s x : Nat} (l : List Production) :
    ∀ st : (Nat → SymSet) × Bool, x ∈ st.1 s →
      x ∈ (l.foldl (firstPassProd g) st).1 s := by
  induction l with
  | nil => intro st h; exact h
  | cons p rest ih =>
    intro st h
    rw [List.foldl_cons]
    exact ih _ (firstPassProd_mono h)

theorem firstIter_mono {g : Grammar} {s x : Nat} :
    ∀ (fuel : Nat) (fs : Nat → SymSet), x ∈ fs s → x ∈ firstIter g fuel fs s := by
  intro fuel
  induction fuel with
  | zero => intro fs h; exact h
  | succ n ih =>
    intro fs h
    simp only [firstIter]
    split
    · exact ih _ (firstFoldl_mono g.productions (fs, false) h)
    · exact firstFoldl_mono g.productions (fs, false) h

theorem first_sets_supset_init {g : Grammar} {s x : Nat}
    (h : x ∈ firstInit g s) : x ∈ first_sets g s :=
  firstIter_mono _ _ h

/-! Extraction of the fixed-point property from a pass that makes no
addition. -/
theorem foldl_orflag_mono {σ α : Type _} (step : σ × Bool → α → σ × Bool)
    (hmono : ∀ st a, st.2 = true → (step st a).2 = true) :
    ∀ (l : List α) (st : σ × Bool), st.2 = true → (l.foldl step st).2 = true := by
  intro l
  induction l with
  | nil => intro st h; exact h
  | cons a rest ih => intro st h; exact ih _ (hmono st a h)

theorem foldl_orflag_false {σ α : Type _} (step : σ × Bool → α → σ × Bool)
    (hmono : ∀ st a, st.2 = true → (step st a).2 = true)
    (hid : ∀ (fs : σ) (a : α), (step (fs, false) a).2 = false →
      (step (fs, false) a).1 = fs) :
    ∀ (l : List α) (fs : σ), (l.foldl step (fs, false)).2 = false →
      (l.foldl step (fs, false)).1 = fs ∧
        ∀ a ∈ l, (step (fs, false) a).2 = false := by
  intro l
  induction l with
  | nil => intro fs _; exact ⟨rfl, by simp⟩
  | cons a rest ih =>
    intro fs h
    have hstep : (step (fs, false) a).2 = false := by
      cases hb : (step (fs, false) a).2
      · rfl
      · exfalso
        have htrue := foldl_orflag_mono step hmono rest (step (fs, false) a) hb
        rw [List.foldl_cons] at h
        rw [h] at htrue
        exact Bool.false_ne_true htrue
    have heq : step (fs, false) a = (fs, false) := by
      calc step (fs, false) a
          = ((step (fs, false) a).1, (step (fs, false) a).2) := rfl
        _ = (fs, false) := by rw [hid fs a hstep, hstep]
    rw [List.foldl_cons, heq] at h
    obtain ⟨h1, h2⟩ := ih fs h
    rw [List.foldl_cons, heq]
    refine ⟨h1, ?_⟩
    intro b hb
    rcases List.mem_cons.mp hb with rfl | hb2
    · exact hstep
    · exact h2 b hb2

theorem firstPassProd_flag_mono {g : Grammar} (st : (Nat → SymSet) × Bool)
    (p : Production) (h : st.2 = true) : (firstPassProd g st p).2 = true := by
  simp [firstPassProd, h]

theorem firstPassProd_flag_false {g : Grammar} {fs : Nat → SymSet}
    {p : Production} (h : (firstPassProd g (fs, false) p).2 = false) :
    (firstPassProd g (fs, false) p).1 = fs ∧
      ∀ x ∈ firsts g fs p.rhs, x ∈ fs (g.lhsSymbol p) := by
  simp only [firstPassProd, Bool.false_or, decide_eq_false_iff_not] at h
  have hsub := SymSet.extendSet_no_growth h
  constructor
  · simp only [firstPassProd]
    funext s
    by_cases he : s = g.lhsSymbol p
    · rw [if_pos he, he, SymSet.extendSet_eq_of_subset hsub]
    · rw [if_neg he]
  · exact hsub

theorem firstPass_fixed {g : Grammar} {fs : Nat → SymSet}
    (h : (firstPass g fs).2 = false) :
    ∀ p ∈ g.productions, ∀ x ∈ firsts g fs p.rhs, x ∈ fs (g.lhsSymbol p) := by
  have hall := foldl_orflag_false (firstPassProd g) (firstPassProd_flag_mono)
    (fun fs p hp => (firstPassProd_flag_false hp).1) g.productions fs h
  intro p hp
  exact (firstPassProd_flag_false (hall.2 p hp)).2

theorem first_sets_complete {g : Grammar} (hwf : g.wf)
    (hfix : ∀ p ∈ g.productions, ∀ x ∈ firsts g (first_sets g) p.rhs,
      x ∈ first_sets g (g.lhsSymbol p)) :
    ∀ s x, FirstIn g s x → x ∈ first_sets g s := by
  intro s x h
  induction h with
  | term t ht =>
    apply first_sets_supset_init
    simp only [firstInit]
    rw [if_neg (fun hc : t = g.emptyIndex => absurd (hc ▸ ht) (Nat.not_lt.mpr hwf.1)),
      if_pos ht]
    exact List.mem_singleton.mpr rfl
  | emptySym =>
    apply first_sets_supset_init
    have hnt := Nat.not_lt.mpr hwf.1
    simp [firstInit, SymSet.insertSym, hnt]
  | ofProd p hp pre t post heq hpre x hxt hne ihpre ihx =>
    apply hfix p hp
    rw [mem_firsts, heq]
    exact firstsSeqMem_of_split ihpre ihx hne
  | prodEmpty p hp hall ih =>
    apply hfix p hp
    exact empty_mem_firsts.mpr ih

theorem firstsAux_stops {g : Grammar} {fs : Nat → SymSet} {s : Nat}
    {post : List Nat} (hs : g.emptyIndex ∉ fs s) :
    ∀ (pre : List Nat), (∀ u ∈ pre, g.emptyIndex ∈ fs u) → ∀ acc,
      firstsAux g fs (pre ++ s :: post) acc = firstsAux g fs (pre ++ [s]) acc := by
  intro pre
  induction pre with
  | nil =>
    intro _ acc
    simp only [List.nil_append, firstsAux]
    rw [if_neg hs, if_neg hs]
  | cons u rest ih =>
    intro hpre acc
    simp only [List.cons_append, firstsAux]
    rw [if_pos (hpre u (List.mem_cons_self u rest)),
      if_pos (hpre u (List.mem_cons_self u rest))]
    exact ih (fun v hv => hpre v (List.mem_cons_of_mem u hv)) _

theorem firsts_stops {g : Grammar} {fs : Nat → SymSet} {s : Nat}
    {pre post : List Nat} (hs : g.emptyIndex ∉ fs s)
    (hpre : ∀ u ∈ pre, g.emptyIndex ∈ fs u) :
    firsts g fs (pre ++ s :: post) = firsts g fs (pre ++ [s]) :=
  firstsAux_stops hs pre hpre []

/-! Lemmas about the FOLLOW pass. -/
theorem mem_followAdds {g : Grammar} {first : Nat → SymSet} {x : Nat} :
    ∀ {xs : List Nat}, x ∈ (followAdds g first xs).1 ↔
      x ≠ g.emptyIndex ∧ FirstsSeqMem g first x xs := by
  intro xs
  induction xs with
  | nil => simp [followAdds, FirstsSeqMem]
  | cons s rest ih =>
    simp only [followAdds, FirstsSeqMem]
    by_cases h : g.emptyIndex ∈ first s
    · rw [if_pos h]
      simp only [List.mem_append, List.mem_filter, decide_eq_true_eq, ih]
      constructor
      · rintro (⟨hm, hne⟩ | ⟨hne, hrest⟩)
        · exact ⟨hne, Or.inl ⟨hm, hne⟩⟩
        · exact ⟨hne, Or.inr ⟨h, hrest⟩⟩
      · rintro ⟨hne, ⟨hm, _⟩ | ⟨_, hrest⟩⟩
        · exact Or.inl ⟨hm, hne⟩
        · exact Or.inr ⟨hne, hrest⟩
    · rw [if_neg h]
      simp only [List.mem_filter, decide_eq_true_eq]
      constructor
      · rintro ⟨hm, hne⟩
        exact ⟨hne, Or.inl ⟨hm, hne⟩⟩
      · rintro ⟨hne, ⟨hm, _⟩ | ⟨he, _⟩⟩
        · exact ⟨hm, hne⟩
        · exact absurd he h

theorem mem_followAdds_firsts {g : Grammar} {first : Nat → SymSet} {x : Nat}
    {xs : List Nat} : x ∈ (followAdds g first xs).1 ↔
      x ≠ g.emptyIndex ∧ x ∈ firsts g first xs := by
  rw [mem_followAdds, mem_firsts]

theorem followAdds_snd_false {g : Grammar} {first : Nat → SymSet} :
    ∀ {xs : List Nat}, (followAdds g first xs).2 = false ↔
      ∀ s ∈ xs, g.emptyIndex ∈ first s := by
  intro xs
  induction xs with
  | nil => simp [followAdds]
  | cons s rest ih =>
    simp only [followAdds]
    by_cases h : g.emptyIndex ∈ first s
    · rw [if_pos h]
      simp only [ih, List.mem_cons]
      constructor
      · intro hall u hu
        rcases hu with rfl | hu2
        · exact h
        · exact hall u hu2
      · intro hall u hu
        exact hall u (Or.inr hu)
    · rw [if_neg h]
      constructor
      · intro hc
        exact absurd hc (by simp)
      · intro hall
        exact absurd (hall s (List.mem_cons_self s rest)) h

theorem followAdds_snd_false_iff_empty_firsts {g : Grammar}
    {first : Nat → SymSet} {xs : List Nat} :
    (followAdds g first xs).2 = false ↔ g.emptyIndex ∈ firsts g first xs := by
  rw [followAdds_snd_false, empty_mem_firsts]

theorem followPosStep_flag_mono {g : Grammar} {first : Nat → SymSet}
    {lhs : Nat} (st : (Nat → SymSet) × Bool) (pr : Nat × List Nat)
    (h : st.2 = true) : (followPosStep g first lhs st pr).2 = true := by
  simp [followPosStep, h]

theorem updateSet_apply_self {fols : Nat → SymSet} {b : Nat} {v : SymSet} :
    updateSet fols b v b = v := by
  unfold updateSet
  rw [if_pos rfl]

theorem updateSet_apply_ne {fols : Nat → SymSet} {b : Nat} {v : SymSet}
    {s : Nat} (h : s ≠ b) : updateSet fols b v s = fols s := by
  unfold updateSet
  rw [if_neg h]

theorem updateSet_eq_self {fols : Nat → SymSet} {b : Nat} {v : SymSet}
    (h : v = fols b) : updateSet fols b v = fols := by
  funext s
  unfold updateSet
  by_cases he : s = b
  · rw [if_pos he, he, h]
  · rw [if_neg he]

theorem updateSet_extend_mono {fols : Nat → SymSet} {b : Nat} {adds : List Nat}
    {s x : Nat} (h : x ∈ fols s) :
    x ∈ updateSet fols b ((fols b).extendSet adds) s := by
  unfold updateSet
  by_cases he : s = b
  · rw [if_pos he]
    exact SymSet.mem_extendSet.mpr (Or.inr (he ▸ h))
  · rw [if_neg he]
    exact h

theorem followPosStep_mono {g : Grammar} {first : Nat → SymSet} {lhs : Nat}
    {st : (Nat → SymSet) × Bool} {pr : Nat × List Nat} {s x : Nat}
    (h : x ∈ st.1 s) : x ∈ (followPosStep g first lhs st pr).1 s := by
  simp only [followPosStep]
  by_cases hbr : (followAdds g first pr.2).2
  · rw [if_pos hbr]
    exact updateSet_extend_mono h
  · rw [if_neg hbr]
    exact updateSet_extend_mono (updateSet_extend_mono h)

theorem followPosStep_flag_false {g : Grammar} {first : Nat → SymSet}
    {lhs : Nat} {fols : Nat → SymSet} {pr : Nat × List Nat}
    (h : (followPosStep g first lhs (fols, false) pr).2 = false) :
    (followPosStep g first lhs (fols, false) pr).1 = fols ∧
      (∀ x ∈ (followAdds g first pr.2).1, x ∈ fols pr.1) ∧
      ((followAdds g first pr.2).2 = false → ∀ x ∈ fols lhs, x ∈ fols pr.1) := by
  simp only [followPosStep, Bool.false_or, decide_eq_false_iff_not] at h ⊢
  by_cases hbr : (followAdds g first pr.2).2
  · rw [if_pos hbr] at h ⊢
    rw [updateSet_apply_self] at h
    have hsub := SymSet.extendSet_no_growth h
    have hid := updateSet_eq_self (SymSet.extendSet_eq_of_subset hsub)
    refine ⟨hid, hsub, ?_⟩
    intro hc
    rw [hc] at hbr
    exact absurd hbr Bool.false_ne_true
  · rw [if_neg hbr] at h ⊢
    rw [updateSet_apply_self] at h
    have h1 : ¬ (fols pr.1).length <
        ((fols pr.1).extendSet (followAdds g first pr.2).1).length := by
      intro hc
      apply h
      calc (fols pr.1).length
          < ((fols pr.1).extendSet (followAdds g first pr.2).1).length := hc
        _ = (updateSet fols pr.1
              ((fols pr.1).extendSet (followAdds g first pr.2).1) pr.1).length := by
            rw [updateSet_apply_self]
        _ ≤ _ := SymSet.length_le_extendSet _ _
    have hsub := SymSet.extendSet_no_growth h1
    have hid := updateSet_eq_self (SymSet.extendSet_eq_of_subset hsub)
    rw [hid] at h ⊢
    have hsub2 := SymSet.extendSet_no_growth h
    have hid2 := updateSet_eq_self (SymSet.extendSet_eq_of_subset hsub2)
    exact ⟨hid2, hsub, fun _ => hsub2⟩

theorem followProdStep_flag_mono {g : Grammar} {first : Nat → SymSet}
    (st : (Nat → SymSet) × Bool) (p : Production) (h : st.2 = true) :
    (followProdStep g first st p).2 = true :=
  foldl_orflag_mono _ (followPosStep_flag_mono) _ st h

theorem followProdStep_flag_false {g : Grammar} {first : Nat → SymSet}
    {fols : Nat → SymSet} {p : Production}
    (h : (followProdStep g first (fols, false) p).2 = false) :
    (followProdStep g first (fols, false) p).1 = fols ∧
      ∀ pr ∈ suffixPairs p.rhs,
        (followPosStep g first (g.lhsSymbol p) (fols, false) pr).2 = false := by
  exact foldl_orflag_false _ (followPosStep_flag_mono)
    (fun fs pr hpr => (followPosStep_flag_false hpr).1) (suffixPairs p.rhs) fols h

theorem followPass_fixed {g : Grammar} {first : Nat → SymSet}
    {fols : Nat → SymSet} (h : (followPass g first fols).2 = false) :
    ∀ p ∈ g.productions, ∀ pr ∈ suffixPairs p.rhs,
      (∀ x ∈ (followAdds g first pr.2).1, x ∈ fols pr.1) ∧
        ((followAdds g first pr.2).2 = false →
          ∀ x ∈ fols (g.lhsSymbol p), x ∈ fols pr.1) := by
  have hall := foldl_orflag_false (followProdStep g first)
    (followProdStep_flag_mono)
    (fun fs p hp => (followProdStep_flag_false hp).1) g.productions fols h
  intro p hp pr hpr
  have hstep := (followProdStep_flag_false (hall.2 p hp)).2 pr hpr
  exact ⟨(followPosStep_flag_false hstep).2.1, (followPosStep_flag_false hstep).2.2⟩

theorem mem_suffixPairs {b : Nat} {beta : List Nat} :
    ∀ {pre rhs : List Nat}, rhs = pre ++ b :: beta →
      (b, beta) ∈ suffixPairs rhs := by
  intro pre
  induction pre with
  | nil =>
    intro rhs h
    subst h
    exact List.mem_cons_self _ _
  | cons u rest ih =>
    intro rhs h
    subst h
    exact List.mem_cons_of_mem _ (ih rfl)

theorem followFoldl_mono {g : Grammar} {first : Nat → SymSet} {lhs s x : Nat}
    (l : List (Nat × List Nat)) :
    ∀ st : (Nat → SymSet) × Bool, x ∈ st.1 s →
      x ∈ (l.foldl (followPosStep g first lhs) st).1 s := by
  induction l with
  | nil => intro st h; exact h
  | cons pr rest ih =>
    intro st h
    rw [List.foldl_cons]
    exact ih _ (followPosStep_mono h)

theorem followPassFoldl_mono {g : Grammar} {first : Nat → SymSet} {s x : Nat}
    (l : List Production) :
    ∀ st : (Nat → SymSet) × Bool, x ∈ st.1 s →
      x ∈ (l.foldl (followProdStep g first) st).1 s := by
  induction l with
  | nil => intro st h; exact h
  | cons p rest ih =>
    intro st h
    rw [List.foldl_cons]
    exact ih _ (followFoldl_mono _ _ h)

theorem followIter_mono {g : Grammar} {first : Nat → SymSet} {s x : Nat} :
    ∀ (fuel : Nat) (fols : Nat → SymSet), x ∈ fols s →
      x ∈ followIter g first fuel fols s := by
  intro fuel
  induction fuel with
  | zero => intro fols h; exact h
  | succ n ih =>
    intro fols h
    simp only [followIter]
    split
    · exact ih _ (followPassFoldl_mono g.productions (fols, false) h)
    · exact followPassFoldl_mono g.productions (fols, false) h

theorem follow_sets_supset_init {g : Grammar} {first : Nat → SymSet} {s x : Nat}
    (h : x ∈ followInit g s) : x ∈ follow_sets g first s :=
  followIter_mono _ _ h

/-! Claim theorems for the table-construction part. -/
/-- Claim C3: `first_sets` computes the least fixed point of the FIRST
equations.  At the converged state: (1) membership coincides with the
inductive (least) family `FirstIn` generated by the FIRST equations;
(2) FIRST(t) = {t} for every terminal; (3) FIRST(EMPTY) = {EMPTY};
(4) for every production A → X₁…Xₙ, whenever EMPTY is in the FIRST of every
symbol before position k, FIRST(Xₖ) minus {EMPTY} is included in FIRST(A);
(5) EMPTY ∈ FIRST(A) when every RHS symbol has EMPTY in its FIRST;
(6) EMPTY ∈ FIRST(A) iff A derives the empty string; and the helper `firsts`
of a symbol sequence (7) contains EMPTY iff every element's FIRST contains
EMPTY and (8) stops at the first element whose FIRST lacks EMPTY. -/
theorem first_sets_least_fixed_point (g : Grammar) (hwf : g.wf)
    (hconv : FirstConverged g) :
    (∀ s x, x ∈ first_sets g s ↔ FirstIn g s x) ∧
    (∀ t, t < g.termCount → first_sets g t = [t]) ∧
    first_sets g g.emptyIndex = [g.emptyIndex] ∧
    (∀ p ∈ g.productions, ∀ pre s post, p.rhs = pre ++ s :: post →
      (∀ u ∈ pre, g.emptyIndex ∈ first_sets g u) →
      ∀ x ∈ first_sets g s, x ≠ g.emptyIndex →
        x ∈ first_sets g (g.lhsSymbol p)) ∧
    (∀ p ∈ g.productions, (∀ u ∈ p.rhs, g.emptyIndex ∈ first_sets g u) →
      g.emptyIndex ∈ first_sets g (g.lhsSymbol p)) ∧
    (∀ s, g.emptyIndex ∈ first_sets g s ↔ Nullable g s) ∧
    (∀ (fs : Nat → SymSet) (xs : List Nat),
      g.emptyIndex ∈ firsts g fs xs ↔ ∀ s ∈ xs, g.emptyIndex ∈ fs s) ∧
    (∀ (fs : Nat → SymSet) (pre : List Nat) (s : Nat) (post : List Nat),
      g.emptyIndex ∉ fs s → (∀ u ∈ pre, g.emptyIndex ∈ fs u) →
      firsts g fs (pre ++ s :: post) = firsts g fs (pre ++ [s])) := by
  have hfix := firstPass_fixed hconv
  have hiff : ∀ s x, x ∈ first_sets g s ↔ FirstIn g s x := fun s x =>
    ⟨fun h => first_sets_sound hwf s x h,
     fun h => first_sets_complete hwf hfix s x h⟩
  refine ⟨hiff, fun t ht => first_sets_terminal hwf ht, first_sets_empty_sym hwf,
    ?_, ?_, ?_, fun fs xs => empty_mem_firsts,
    fun fs pre s post hs hpre => firsts_stops hs hpre⟩
  · intro p hp pre s post hsplit hpre x hx hne
    apply hfix p hp
    rw [mem_firsts, hsplit]
    exact firstsSeqMem_of_split hpre hx hne
  · intro p hp hall
    exact hfix p hp _ (empty_mem_firsts.mpr hall)
  · intro s
    rw [hiff s g.emptyIndex]
    exact firstIn_empty_iff_nullable hwf s

/-- Witness for C3: the theorem applied to the concrete expression grammar,
whose wellformedness and convergence hold by computation. -/
theorem first_sets_least_fixed_point_witness :
    g8.wf ∧ FirstConverged g8 ∧
      (∀ s x, x ∈ first_sets g8 s ↔ FirstIn g8 s x) :=
  ⟨by decide, by decide,
    (first_sets_least_fixed_point g8 (by decide) (by decide)).1⟩

/-- Claim C4: at the converged state, `follow_sets` satisfies the FOLLOW
closure rules: STOP ∈ FOLLOW(start); for every production A → α B β,
FIRST(β) minus {EMPTY} is included in FOLLOW(B); and when β is empty or
EMPTY ∈ FIRST(β), FOLLOW(A) is included in FOLLOW(B). -/
theorem follow_sets_fixed_point (g : Grammar) (first : Nat → SymSet)
    (hconv : FollowConverged g first) :
    g.stopIndex ∈ follow_sets g first g.startIndex ∧
    ∀ p ∈ g.productions, ∀ pre b beta, p.rhs = pre ++ b :: beta →
      (∀ x ∈ firsts g first beta, x ≠ g.emptyIndex →
        x ∈ follow_sets g first b) ∧
      ((beta = [] ∨ g.emptyIndex ∈ firsts g first beta) →
        ∀ x ∈ follow_sets g first (g.lhsSymbol p), x ∈ follow_sets g first b) := by
  constructor
  · apply follow_sets_supset_init
    simp [followInit]
  · intro p hp pre b beta hsplit
    have hpr := followPass_fixed hconv p hp (b, beta) (mem_suffixPairs hsplit)
    constructor
    · intro x hx hne
      exact hpr.1 x (mem_followAdds_firsts.mpr ⟨hne, hx⟩)
    · intro hcond x hx
      refine hpr.2 ?_ x hx
      rcases hcond with rfl | he
      · rfl
      · exact followAdds_snd_false_iff_empty_firsts.mpr he

/-- Witness for C4: the theorem applied to the concrete expression grammar
with its computed FIRST sets. -/
theorem follow_sets_fixed_point_witness :
    FollowConverged g8 (first_sets g8) ∧
      g8.stopIndex ∈ follow_sets g8 (first_sets g8) g8.startIndex :=
  ⟨by decide, (follow_sets_fixed_point g8 (first_sets g8) (by decide)).1⟩

/-- Claim C8: for the expression grammar, FIRST(E) = {"(", "id"},
FOLLOW(E) = FOLLOW(Ep) = {")", STOP} and FOLLOW(T) = FOLLOW(Tp) =
{"+", ")", STOP} (set equality stated as mutual inclusion over the list
encodings; symbol indices per `g8`). -/
theorem g8_first_follow_sets :
    ((∀ x ∈ first_sets g8 8, x ∈ [3, 5]) ∧
      (∀ x ∈ ([3, 5] : List Nat), x ∈ first_sets g8 8)) ∧
    ((∀ x ∈ follow_sets g8 (first_sets g8) 8, x ∈ [4, 0]) ∧
      (∀ x ∈ ([4, 0] : List Nat), x ∈ follow_sets g8 (first_sets g8) 8)) ∧
    ((∀ x ∈ follow_sets g8 (first_sets g8) 9, x ∈ [4, 0]) ∧
      (∀ x ∈ ([4, 0] : List Nat), x ∈ follow_sets g8 (first_sets g8) 9)) ∧
    ((∀ x ∈ follow_sets g8 (first_sets g8) 10, x ∈ [1, 4, 0]) ∧
      (∀ x ∈ ([1, 4, 0] : List Nat), x ∈ follow_sets g8 (first_sets g8) 10)) ∧
    ((∀ x ∈ follow_sets g8 (first_sets g8) 11, x ∈ [1, 4, 0]) ∧
      (∀ x ∈ ([1, 4, 0] : List Nat), x ∈ follow_sets g8 (first_sets g8) 11)) := by
  decide

/-- Counterexample for claim C5: on the left-infinite grammar `A: A;` the
FIRST set of symbol 2 (AUG) is empty and `calculate_lr_tables` halts in the
`check_empty_sets` panic — the grammar error does not surface as a returned
value (the Rust function returns `()` and has no error channel). -/
theorem calculate_lr_tables_panic_cex :
    (first_sets gInf 2).isEmpty = true ∧
    calculate_lr_tables gInf =
      TableOutcome.panicked (PanicReason.emptyFirstSet 2) ∧
    calculate_lr_tables gInf ≠ TableOutcome.returned := by
  refine ⟨by decide, by decide, by decide⟩

/-- Claim C5 (amended): when some grammar symbol's FIRST set is empty after
the computation, `calculate_lr_tables` panics in `check_empty_sets` with a
message naming the first such symbol; the process halts rather than
returning, since the function has no error channel. -/
theorem calculate_lr_tables_empty_first_panics (g : Grammar) (i : Nat)
    (hi : i < g.symbolCount) (hempty : (first_sets g i).isEmpty = true) :
    ∃ j, check_empty_sets g (first_sets g) = some j ∧ j < g.symbolCount ∧
      (first_sets g j).isEmpty = true ∧
      calculate_lr_tables g =
        TableOutcome.panicked (PanicReason.emptyFirstSet j) := by
  have hex : ∃ x ∈ List.range g.symbolCount,
      (fun i => (first_sets g i).isEmpty) x = true :=
    ⟨i, List.mem_range.mpr hi, hempty⟩
  have hsome : ((List.range g.symbolCount).find?
      (fun i => (first_sets g i).isEmpty)).isSome := by
    rw [List.find?_isSome]
    exact hex
  obtain ⟨j, hj⟩ := Option.isSome_iff_exists.mp hsome
  have hjp := List.find?_some hj
  have hjm : j ∈ List.range g.symbolCount := List.mem_of_find?_eq_some hj
  have hcheck : check_empty_sets g (first_sets g) = some j := hj
  refine ⟨j, hcheck, List.mem_range.mp hjm, hjp, ?_⟩
  unfold calculate_lr_tables
  dsimp only
  rw [hcheck]

/-- Witness for the amended C5 at the left-infinite grammar. -/
theorem calculate_lr_tables_empty_first_panics_witness :
    2 < gInf.symbolCount ∧ (first_sets gInf 2).isEmpty = true ∧
      ∃ j, check_empty_sets gInf (first_sets gInf) = some j ∧
        j < gInf.symbolCount ∧ (first_sets gInf j).isEmpty = true ∧
        calculate_lr_tables gInf =
          TableOutcome.panicked (PanicReason.emptyFirstSet j) :=
  ⟨by decide, by decide,
    calculate_lr_tables_empty_first_panics gInf 2 (by decide) (by decide)⟩

/-- Claim C10: the index newtypes' `Default` value is `usize::MAX`, which is
deliberately invalid: `get` on any collection shorter than `usize::MAX`
returns `None` at a default-constructed index. -/
theorem index_default_get_none {α : Type} (v : List α)
    (h : v.length < usizeMax) : indexVecGet v indexDefault = none := by
  unfold indexVecGet indexDefault
  rw [List.get?_eq_none]
  exact Nat.le_of_lt h

/-- Witness for C10 on a three-element collection. -/
theorem index_default_get_none_witness :
    ([10, 20, 30] : List Nat).length < usizeMax ∧
      indexVecGet ([10, 20, 30] : List Nat) indexDefault = none :=
  ⟨by decide, index_default_get_none _ (by decide)⟩

/-! Claim theorems for the GLR runtime. -/
/-- Claim C7: when the lexer (after at most one layout-parsing attempt)
yields no tokens for a head, `find_lookaheads` returns exactly one STOP
token with an empty value if partial parse is enabled and STOP is among the
state's expected token kinds, and an empty token list otherwise; no error is
raised in either case (the return type has no error channel — the head
simply dies). -/
theorem find_lookaheads_no_tokens (p : GlrParser) (gss : GssGraph)
    (head : Nat) (input : String)
    (hlex : ∀ h expected, p.lexer h input expected = []) :
    ((p.partial_parse = true ∧
        ((p.definition.expectedTokenKinds (gss.headAt head).state).any
          (fun o => o == some 0)) = true) →
      ∃ loc, (find_lookaheads p gss head input).2 =
        [{ kind := 0, value := "", location := loc }]) ∧
    ((p.partial_parse = false ∨
        ((p.definition.expectedTokenKinds (gss.headAt head).state).any
          (fun o => o == some 0)) = false) →
      (find_lookaheads p gss head input).2 = []) := by
  have hattw : ∀ saved lp, (layoutAttemptWith p input
      (p.definition.expectedTokenKinds (gss.headAt head).state) saved lp).2 = [] := by
    intro saved lp
    rcases lp with ⟨h2, res⟩
    rcases res with _ | ores
    · rfl
    · rcases ores with _ | layout
      · rfl
      · unfold layoutAttemptWith
        by_cases hlen : 0 < layout.length
        · simp only [if_pos hlen]
          exact hlex _ _
        · simp only [if_neg hlen]
  have hatt : ∀ h, (layoutAttempt p input
      (p.definition.expectedTokenKinds (gss.headAt head).state) h).2 = [] := by
    intro h
    unfold layoutAttempt
    by_cases hl : p.has_layout
    · rw [if_pos hl]
      exact hattw _ _
    · rw [if_neg hl]
  have hsnd : (find_lookaheads p gss head input).2 =
      lookaheadFallback p
        (p.definition.expectedTokenKinds (gss.headAt head).state)
        (if (p.lexer (gss.headAt head) input
              (p.definition.expectedTokenKinds (gss.headAt head).state)).isEmpty
          then layoutAttempt p input
            (p.definition.expectedTokenKinds (gss.headAt head).state)
            (gss.headAt head)
          else (gss.headAt head,
            p.lexer (gss.headAt head) input
              (p.definition.expectedTokenKinds (gss.headAt head).state))).1
        (if (p.lexer (gss.headAt head) input
              (p.definition.expectedTokenKinds (gss.headAt head).state)).isEmpty
          then layoutAttempt p input
            (p.definition.expectedTokenKinds (gss.headAt head).state)
            (gss.headAt head)
          else (gss.headAt head,
            p.lexer (gss.headAt head) input
              (p.definition.expectedTokenKinds (gss.headAt head).state))).2 := rfl
  rw [hlex] at hsnd
  simp only [List.isEmpty_nil, if_true] at hsnd
  rw [hsnd, hatt]
  unfold lookaheadFallback
  constructor
  · rintro ⟨hp, ha⟩
    refine ⟨(layoutAttempt p input
        (p.definition.expectedTokenKinds (gss.headAt head).state)
        (gss.headAt head)).1.location, ?_⟩
    simp [hp, ha]
  · rintro (hp | ha)
    · simp [hp]
    · simp [ha]

/-- Witness for C7: with partial parse on and STOP expected, a head with a
token-less lexer gets exactly one empty-valued STOP token. -/
theorem find_lookaheads_no_tokens_witness :
    ∃ loc, (find_lookaheads stopParser oneHeadGss 0 "xy").2 =
      [{ kind := 0, value := "", location := loc }] :=
  (find_lookaheads_no_tokens stopParser oneHeadGss 0 "xy"
    (fun _ _ => rfl)).1 ⟨rfl, rfl⟩

/-- Claim C9: a reduction path whose GOTO target state has no non-error
action for the current lookahead leaves the reducer state unchanged — no
head, edge, possibility, reduction, shift or accept is added, and no error
is signalled. -/
theorem reduceOnePath_no_actions (p : GlrParser) (start_head production : Nat)
    (path : ReductionPath) (st : ReducerState)
    (hact : ((p.definition.actions
        (p.definition.goto (st.gss.headAt path.root_head).state
          (p.definition.prodNonterm production))
        ((st.gss.headAt start_head).tokenAhead.getD default).kind).takeWhile
        (fun a => !(a == Action.error))).isEmpty = true) :
    reduceOnePath p start_head production path st = st := by
  unfold reduceOnePath
  rw [if_pos hact]

/-- Witness for C9 at a parser with an empty ACTION table. -/
theorem reduceOnePath_no_actions_witness :
    reduceOnePath deadParser 0 0 ⟨[], 0⟩
        ⟨GssGraph.empty, NatMap.empty, [], [], []⟩ =
      ⟨GssGraph.empty, NatMap.empty, [], [], []⟩ :=
  reduceOnePath_no_actions deadParser 0 0 ⟨[], 0⟩
    ⟨GssGraph.empty, NatMap.empty, [], [], []⟩ rfl

/-- Counterexample for claim C1: with a lexer that yields no tokens, the
frontier base empties on the first iteration with no head ever accepted,
yet `parse` (via `parse_with_context`) returns a SUCCESS value — `Ok` of an
empty forest — not an error result. -/
theorem parse_ok_on_empty_frontier_cex :
    (glr_main_loop deadParser "ab" 3 0
        (GssGraph.empty.addHead { (default : GssHead) with position := 0 }).1
        (NatMap.empty.insert 0 0) []).map (fun r => r.2) = some [] ∧
    parse deadParser 3 "ab" = some (Except.ok ⟨[]⟩) := by
  exact ⟨rfl, rfl⟩

/-- Claim C1 (amended): `parse_with_context` (and so `parse`) returns `Ok`
on every terminating run — it constructs no error value; when the main loop
ends with no accepted head (the frontier became empty before any Accept),
the result is `Ok` of an empty forest. -/
theorem parse_with_context_always_ok (p : GlrParser) (fuel : Nat)
    (context : GssHead) (input : String) (gss : GssGraph)
    (accepted : List Nat)
    (hrun : glr_main_loop p input fuel 0 (GssGraph.empty.addHead context).1
        (NatMap.empty.insert context.state (GssGraph.empty.addHead context).2)
        [] = some (gss, accepted)) :
    parse_with_context p fuel context input =
      some (Except.ok (create_forest gss accepted)) ∧
    (accepted = [] →
      parse_with_context p fuel context input = some (Except.ok ⟨[]⟩)) := by
  have hmain : parse_with_context p fuel context input =
      match glr_main_loop p input fuel 0 (GssGraph.empty.addHead context).1
        (NatMap.empty.insert context.state
          (GssGraph.empty.addHead context).2) [] with
      | none => none
      | some r => some (Except.ok (create_forest r.1 r.2)) := rfl
  rw [hrun] at hmain
  refine ⟨hmain, ?_⟩
  rintro rfl
  rw [hmain]
  rfl

/-- Witness for the amended C1: the dead-lexer run terminates with no
accepted head and the parse result is `Ok` of the empty forest. -/
theorem parse_with_context_always_ok_witness :
    parse_with_context deadParser 3 { (default : GssHead) with position := 0 }
      "ab" = some (Except.ok ⟨[]⟩) :=
  (parse_with_context_always_ok deadParser 3
    { (default : GssHead) with position := 0 } "ab"
    ⟨[{ (default : GssHead) with position := 0 }], [], []⟩ [] rfl).2 rfl

/-- Counterexample for claim C2: rediscovering a solution for the same
(edge, production) with a reduction path of the SAME length as the existing
children list appends a second possibility instead of skipping, leaving two
NonTerminal possibilities with equal (production, children-length) on one
edge. -/
theorem reducer_packed_dedup_cex :
    ((packSt.gss.parentAt 0).possibilities.countP
      (fun t => match t with
        | SPPFTree.nonTerm prod _ children =>
          prod == 7 && children.length == 1
        | _ => false) = 1) ∧
    (((reduceOnePath packParser 1 7 packPath packSt).gss.parentAt
        0).possibilities.countP
      (fun t => match t with
        | SPPFTree.nonTerm prod _ children =>
          prod == 7 && children.length == 1
        | _ => false) = 2) := by
  exact ⟨rfl, rfl⟩

theorem registerAction_gss (edge head : Nat) (ec hc : Bool)
    (st : ReducerState) (a : Action) :
    (registerAction edge head ec hc st a).gss = st.gss := by
  cases a with
  | shift s =>
    dsimp only [registerAction]
    split <;> rfl
  | reduce production length =>
    dsimp only [registerAction]
    split <;> rfl
  | accept =>
    dsimp only [registerAction]
    split <;> rfl
  | error => rfl

theorem registerActions_gss (edge head : Nat) (ec hc : Bool) :
    ∀ (l : List Action) (st : ReducerState),
    (l.foldl (registerAction edge head ec hc) st).gss = st.gss := by
  intro l
  induction l with
  | nil => intro st; rfl
  | cons a rest ih =>
    intro st
    rw [List.foldl_cons, ih, registerAction_gss]

theorem getD_set_self {α : Type} (d : α) :
    ∀ (l : List α) (i : Nat) (a : α), i < l.length →
      (l.set i a).getD i d = a := by
  intro l
  induction l with
  | nil =>
    intro i a h
    simp at h
  | cons x rest ih =>
    intro i a h
    cases i with
    | zero => rfl
    | succ n => exact ih n a (Nat.lt_of_succ_lt_succ h)

theorem parentAt_setParent_self {gss : GssGraph} {pi : Nat} {par : Parent}
    (h : pi < gss.parents.length) :
    (gss.setParent pi par).parentAt pi = par := by
  unfold GssGraph.setParent GssGraph.parentAt
  exact getD_set_self default gss.parents pi par h

theorem reduceFindHead_found {st : ReducerState} {start_head next_state h : Nat}
    (hh : st.subfrontier.find? next_state = some h) :
    reduceFindHead st start_head next_state =
      (h, false, st.gss, st.subfrontier) := by
  unfold reduceFindHead
  rw [hh]

theorem reduceFindEdge_found {gss1 : GssGraph} {head root e : Nat}
    (he : gss1.edgeBetween head root = some e) :
    reduceFindEdge gss1 head root = (e, false, gss1) := by
  unfold reduceFindEdge
  rw [he]

/-- The replacement scan leaves the possibility list unchanged when no
same-production possibility has a strictly shorter children list. -/
theorem replaceFirstLonger_no_shorter (production : Nat) (parents : List Nat) :
    ∀ (l : List SPPFTree),
    (∀ t ∈ l, match t with
      | SPPFTree.nonTerm prod _ children =>
        prod = production → ¬ children.length < parents.length
      | _ => True) →
    replaceFirstLonger production parents l = l := by
  intro l
  induction l with
  | nil => intro _; rfl
  | cons t rest ih =>
    intro hall
    have ht := hall t (List.mem_cons_self t rest)
    have hrest := fun u hu => hall u (List.mem_cons_of_mem t hu)
    cases t with
    | term tok data =>
      show SPPFTree.term tok data :: replaceFirstLonger production parents rest =
        SPPFTree.term tok data :: rest
      rw [ih hrest]
    | nonTerm prod data children =>
      by_cases hcond : prod = production ∧ children.length < parents.length
      · exact absurd hcond.2 (ht hcond.1)
      · show (if prod = production ∧ children.length < parents.length then _
            else SPPFTree.nonTerm prod data children ::
              replaceFirstLonger production parents rest) = _
        rw [if_neg hcond, ih hrest]

/-- Claim C2 (amended): when the reducer processes a reduction path for an
already existing head and edge (and the GOTO state has a non-error action),
the edge's packed possibility list changes as follows: if every present
possibility is a NonTerminal whose production differs from the reduced one
or whose children count EQUALS the path length, a new packed possibility is
APPENDED (equal (production, children-length) entries pack genuine
ambiguity); otherwise nothing is appended and the children of the first
same-production possibility strictly shorter than the path are replaced in
place (right-nulled rediscovery) — when no such shorter possibility exists
the list is unchanged. -/
theorem reduceOnePath_packing (p : GlrParser) (start_head production : Nat)
    (path : ReductionPath) (st : ReducerState) (head edge : Nat)
    (hact : ((p.definition.actions (p.definition.goto
        (st.gss.headAt path.root_head).state
        (p.definition.prodNonterm production))
        ((st.gss.headAt start_head).tokenAhead.getD default).kind).takeWhile
        (fun a => !(a == Action.error))).isEmpty = false)
    (hhead : st.subfrontier.find? (p.definition.goto
        (st.gss.headAt path.root_head).state
        (p.definition.prodNonterm production)) = some head)
    (hedge : st.gss.edgeBetween head path.root_head = some edge)
    (hpi : (st.gss.edgeAt edge).parent < st.gss.parents.length) :
    (((reduceOnePath p start_head production path st).gss.parentAt
        ((st.gss.edgeAt edge).parent)).possibilities =
      if ((st.gss.parentAt ((st.gss.edgeAt edge).parent)).possibilities.all
          (fun t => match t with
            | SPPFTree.term _ _ => false
            | SPPFTree.nonTerm prod _ children =>
              prod != production || (path.parents.length == children.length)))
      then (st.gss.parentAt ((st.gss.edgeAt edge).parent)).possibilities ++
          [reduceSolution st.gss start_head production path]
      else replaceFirstLonger production path.parents
          (st.gss.parentAt ((st.gss.edgeAt edge).parent)).possibilities) ∧
    (∀ (l : List SPPFTree),
      (∀ t ∈ l, match t with
        | SPPFTree.nonTerm prod _ children =>
          prod = production → ¬ children.length < path.parents.length
        | _ => True) →
      replaceFirstLonger production path.parents l = l) := by
  refine ⟨?_, fun l hl => replaceFirstLonger_no_shorter production path.parents l hl⟩
  have hne : ¬ (((p.definition.actions (p.definition.goto
      (st.gss.headAt path.root_head).state
      (p.definition.prodNonterm production))
      ((st.gss.headAt start_head).tokenAhead.getD default).kind).takeWhile
      (fun a => !(a == Action.error))).isEmpty = true) := by
    rw [hact]
    exact Bool.false_ne_true
  unfold reduceOnePath
  dsimp only
  rw [if_neg hne, reduceFindHead_found hhead, reduceFindEdge_found hedge]
  dsimp only
  simp only [Bool.false_or]
  by_cases hall :
      ((st.gss.parentAt ((st.gss.edgeAt edge).parent)).possibilities.all
        (fun t => match t with
          | SPPFTree.term _ _ => false
          | SPPFTree.nonTerm prod _ children =>
            prod != production || (path.parents.length == children.length))) = true
  · rw [hall]
    simp only [Bool.not_true]
    rw [if_neg Bool.false_ne_true, registerActions_gss]
    dsimp only
    rw [parentAt_setParent_self hpi]
    simp
  · have hallf :
        ((st.gss.parentAt ((st.gss.edgeAt edge).parent)).possibilities.all
          (fun t => match t with
            | SPPFTree.term _ _ => false
            | SPPFTree.nonTerm prod _ children =>
              prod != production || (path.parents.length == children.length))) = false := by
      cases hx : ((st.gss.parentAt ((st.gss.edgeAt edge).parent)).possibilities.all
          (fun t => match t with
            | SPPFTree.term _ _ => false
            | SPPFTree.nonTerm prod _ children =>
              prod != production || (path.parents.length == children.length)))
      · rfl
      · exact absurd hx hall
    rw [hallf]
    simp only [Bool.not_false, if_true]
    rw [parentAt_setParent_self hpi]
    simp

/-- Witness for the amended C2 at the packed-node instance: the equal-length
rediscovery is appended as a new packed possibility. -/
theorem reduceOnePath_packing_witness :
    ((reduceOnePath packParser 1 7 packPath packSt).gss.parentAt
        0).possibilities =
      (packSt.gss.parentAt 0).possibilities ++
        [reduceSolution packSt.gss 1 7 packPath] := by
  have h := (reduceOnePath_packing packParser 1 7 packPath packSt 1 0
    rfl rfl rfl (by decide)).1
  have hc : ((packSt.gss.parentAt (packSt.gss.edgeAt 0).parent).possibilities.all
      (fun t => match t with
        | SPPFTree.term _ _ => false
        | SPPFTree.nonTerm prod _ children =>
          prod != 7 || (packPath.parents.length == children.length))) = true := rfl
  rw [if_pos hc] at h
  exact h

/-! Properties of the shifter (claim C6). -/
/-- Counterexample for claim C6: two pending shifts to the same target
state whose heads disagree on position + token length merge into ONE head,
whose position comes from the first-drained (last-pushed) shift; for the
other shift the claimed position equation fails (merged position 4, claimed
0 + 1 = 1). -/
theorem shifter_merged_position_cex :
    (shifter deadParser shiftGss [(0, 5), (1, 5)] 1).2.find? 5 = some 2 ∧
    ((shifter deadParser shiftGss [(0, 5), (1, 5)] 1).1.headAt 2).position = 4 ∧
    shiftPos shiftGss 0 = 1 ∧ (4 : Nat) ≠ 1 := by
  refine ⟨rfl, rfl, rfl, by decide⟩

theorem natMap_find?_cons {α : Type} (k0 : Nat) (v0 : α)
    (rest : List (Nat × α)) (k : Nat) :
    NatMap.find? ((k0, v0) :: rest) k =
      if k = k0 then some v0 else NatMap.find? rest k := rfl

theorem natMap_insert_cons {α : Type} (k0 : Nat) (v0 : α)
    (rest : List (Nat × α)) (k : Nat) (v : α) :
    NatMap.insert ((k0, v0) :: rest) k v =
      if k < k0 then (k, v) :: (k0, v0) :: rest
      else if k = k0 then (k, v) :: rest
      else (k0, v0) :: NatMap.insert rest k v := rfl

theorem natMap_find?_insert_self {α : Type} :
    ∀ (m : NatMap α) (k : Nat) (v : α), (m.insert k v).find? k = some v := by
  intro m
  induction m with
  | nil =>
    intro k v
    show NatMap.find? [(k, v)] k = some v
    rw [natMap_find?_cons, if_pos rfl]
  | cons kv rest ih =>
    intro k v
    rcases kv with ⟨k0, v0⟩
    show NatMap.find? (NatMap.insert ((k0, v0) :: rest) k v) k = some v
    rw [natMap_insert_cons]
    by_cases h1 : k < k0
    · rw [if_pos h1, natMap_find?_cons, if_pos rfl]
    · rw [if_neg h1]
      by_cases h2 : k = k0
      · rw [if_pos h2, natMap_find?_cons, if_pos rfl]
      · rw [if_neg h2, natMap_find?_cons, if_neg h2]
        exact ih k v

theorem natMap_find?_insert_ne {α : Type} :
    ∀ (m : NatMap α) (k k2 : Nat) (v : α), k ≠ k2 →
      (m.insert k2 v).find? k = m.find? k := by
  intro m
  induction m with
  | nil =>
    intro k k2 v hne
    show NatMap.find? [(k2, v)] k = NatMap.find? [] k
    rw [natMap_find?_cons, if_neg hne]
  | cons kv rest ih =>
    intro k k2 v hne
    rcases kv with ⟨k0, v0⟩
    show NatMap.find? (NatMap.insert ((k0, v0) :: rest) k2 v) k = _
    rw [natMap_insert_cons]
    by_cases h1 : k2 < k0
    · rw [if_pos h1, natMap_find?_cons, if_neg hne]
    · rw [if_neg h1]
      by_cases h2 : k2 = k0
      · rw [if_pos h2, natMap_find?_cons, natMap_find?_cons]
        by_cases h3 : k = k0
        · exact absurd (h3.trans h2.symm) hne
        · rw [if_neg hne, if_neg h3]
      · rw [if_neg h2, natMap_find?_cons, natMap_find?_cons]
        by_cases h3 : k = k0
        · rw [if_pos h3, if_pos h3]
        · rw [if_neg h3, if_neg h3]
          exact ih k k2 v hne

theorem getD_append_left {α : Type} (d : α) :
    ∀ (l l2 : List α) (i : Nat), i < l.length →
      (l ++ l2).getD i d = l.getD i d := by
  intro l
  induction l with
  | nil =>
    intro l2 i h
    simp at h
  | cons x rest ih =>
    intro l2 i h
    cases i with
    | zero => rfl
    | succ n => exact ih l2 n (Nat.lt_of_succ_lt_succ h)

theorem getD_concat_self {α : Type} (d : α) :
    ∀ (l : List α) (x : α), (l ++ [x]).getD l.length d = x := by
  intro l
  induction l with
  | nil => intro x; rfl
  | cons y rest ih => intro x; exact ih x

theorem addHead_headAt_lt (gss : GssGraph) (h : GssHead) {i : Nat}
    (hi : i < gss.heads.length) :
    (gss.addHead h).1.headAt i = gss.headAt i := by
  unfold GssGraph.addHead GssGraph.headAt
  exact getD_append_left default gss.heads [h] i hi

theorem addHead_headAt_new (gss : GssGraph) (h : GssHead) :
    (gss.addHead h).1.headAt gss.heads.length = h := by
  unfold GssGraph.addHead GssGraph.headAt
  exact getD_concat_self default gss.heads h

theorem addSolution_parentAt_lt (gss : GssGraph) (a b : Nat) (t : SPPFTree)
    {pi : Nat} (h : pi < gss.parents.length) :
    (GssGraph.addSolution gss a b t).parentAt pi = gss.parentAt pi := by
  unfold GssGraph.addSolution GssGraph.addParentNew GssGraph.parentAt
  exact getD_append_left default gss.parents [⟨b, a, [t]⟩] pi h

theorem addSolution_parentAt_new (gss : GssGraph) (a b : Nat) (t : SPPFTree) :
    (GssGraph.addSolution gss a b t).parentAt gss.parents.length =
      ⟨b, a, [t]⟩ := by
  unfold GssGraph.addSolution GssGraph.addParentNew GssGraph.parentAt
  exact getD_concat_self default gss.parents _

/-- Unfolding of one shifter step when the target state is already in the
next frontier base. -/
theorem shifterGo_cons_found (p : GlrParser) (fidx head_idx state : Nat)
    (rest : List (Nat × Nat)) (gss : GssGraph) (base : NatMap Nat) (sh : Nat)
    (hf : base.find? state = some sh) :
    shifterGo p fidx ((head_idx, state) :: rest) gss base =
      shifterGo p fidx rest
        (GssGraph.addSolution gss sh head_idx
          (termPossibility ((gss.headAt head_idx).tokenAhead.getD default)))
        base := by
  conv_lhs => rw [shifterGo]
  rw [hf]

/-- Unfolding of one shifter step when a new merged head is created. -/
theorem shifterGo_cons_new (p : GlrParser) (fidx head_idx state : Nat)
    (rest : List (Nat × Nat)) (gss : GssGraph) (base : NatMap Nat)
    (hf : base.find? state = none) :
    shifterGo p fidx ((head_idx, state) :: rest) gss base =
      shifterGo p fidx rest
        (GssGraph.addSolution
          (gss.addHead (shiftNewHead p fidx gss head_idx state)).1
          gss.heads.length head_idx
          (termPossibility ((gss.headAt head_idx).tokenAhead.getD default)))
        (base.insert state gss.heads.length) := by
  conv_lhs => rw [shifterGo]
  rw [hf]
  rfl

/-- Preservation facts of a shifter drain: heads and parents are only
appended (existing entries stable), edges only added, and existing frontier
base bindings survive. -/
theorem shifterGo_preserves (p : GlrParser) (fidx : Nat) :
    ∀ (l : List (Nat × Nat)) (gss : GssGraph) (base : NatMap Nat),
      gss.heads.length ≤ (shifterGo p fidx l gss base).1.heads.length ∧
      (∀ i, i < gss.heads.length →
        (shifterGo p fidx l gss base).1.headAt i = gss.headAt i) ∧
      gss.parents.length ≤ (shifterGo p fidx l gss base).1.parents.length ∧
      (∀ pi, pi < gss.parents.length →
        (shifterGo p fidx l gss base).1.parentAt pi = gss.parentAt pi) ∧
      (∀ e, e ∈ gss.edges → e ∈ (shifterGo p fidx l gss base).1.edges) ∧
      (∀ s hs, base.find? s = some hs →
        (shifterGo p fidx l gss base).2.find? s = some hs) := by
  intro l
  induction l with
  | nil =>
    intro gss base
    exact ⟨Nat.le_refl _, fun _ _ => rfl, Nat.le_refl _, fun _ _ => rfl,
      fun _ h => h, fun _ _ h => h⟩
  | cons pr rest ih =>
    intro gss base
    rcases pr with ⟨head_idx, state⟩
    rcases hf : base.find? state with _ | sh
    · rw [shifterGo_cons_new p fidx head_idx state rest gss base hf]
      have hih := ih (GssGraph.addSolution
          (gss.addHead (shiftNewHead p fidx gss head_idx state)).1
          gss.heads.length head_idx
          (termPossibility ((gss.headAt head_idx).tokenAhead.getD default)))
        (base.insert state gss.heads.length)
      obtain ⟨ih1, ih2, ih3, ih4, ih5, ih6⟩ := hih
      refine ⟨?_, ?_, ?_, ?_, ?_, ?_⟩
      · refine Nat.le_trans ?_ ih1
        show gss.heads.length ≤ (gss.heads ++ _).length
        rw [List.length_append]
        exact Nat.le_add_right _ _
      · intro i hi
        rw [ih2 i (by
          show i < (gss.heads ++ _).length
          rw [List.length_append]
          exact Nat.lt_of_lt_of_le hi (Nat.le_add_right _ _))]
        exact addHead_headAt_lt gss _ hi
      · refine Nat.le_trans ?_ ih3
        show gss.parents.length ≤ (gss.parents ++ _).length
        rw [List.length_append]
        exact Nat.le_add_right _ _
      · intro pi hpi
        rw [ih4 pi (by
          show pi < (gss.parents ++ _).length
          rw [List.length_append]
          exact Nat.lt_of_lt_of_le hpi (Nat.le_add_right _ _))]
        exact addSolution_parentAt_lt _ _ _ _ hpi
      · intro e he
        refine ih5 e ?_
        show e ∈ gss.edges ++ _
        exact List.mem_append_left _ he
      · intro s hs hfind
        refine ih6 s hs ?_
        have hne : s ≠ state := by
          intro hc
          rw [hc, hf] at hfind
          exact Option.noConfusion hfind
        rw [natMap_find?_insert_ne base s state gss.heads.length hne]
        exact hfind
    · rw [shifterGo_cons_found p fidx head_idx state rest gss base sh hf]
      have hih := ih (GssGraph.addSolution gss sh head_idx
          (termPossibility ((gss.headAt head_idx).tokenAhead.getD default)))
        base
      obtain ⟨ih1, ih2, ih3, ih4, ih5, ih6⟩ := hih
      refine ⟨ih1, ih2, ?_, ?_, ?_, ih6⟩
      · refine Nat.le_trans ?_ ih3
        show gss.parents.length ≤ (gss.parents ++ _).length
        rw [List.length_append]
        exact Nat.le_add_right _ _
      · intro pi hpi
        rw [ih4 pi (by
          show pi < (gss.parents ++ _).length
          rw [List.length_append]
          exact Nat.lt_of_lt_of_le hpi (Nat.le_add_right _ _))]
        exact addSolution_parentAt_lt _ _ _ _ hpi
      · intro e he
        refine ih5 e ?_
        show e ∈ gss.edges ++ _
        exact List.mem_append_left _ he

theorem addSolution_headAt (gss : GssGraph) (a b : Nat) (t : SPPFTree)
    (i : Nat) : (GssGraph.addSolution gss a b t).headAt i = gss.headAt i := rfl

theorem addSolution_heads_length (gss : GssGraph) (a b : Nat) (t : SPPFTree) :
    (GssGraph.addSolution gss a b t).heads.length = gss.heads.length := rfl

theorem addSolution_edges (gss : GssGraph) (a b : Nat) (t : SPPFTree) :
    (GssGraph.addSolution gss a b t).edges =
      gss.edges ++ [(⟨a, b, gss.parents.length⟩ : GssEdge)] := rfl

theorem addSolution_parents_length (gss : GssGraph) (a b : Nat)
    (t : SPPFTree) :
    (GssGraph.addSolution gss a b t).parents.length =
      gss.parents.length + 1 := by
  show (gss.parents ++ [(⟨b, a, [t]⟩ : Parent)]).length = gss.parents.length + 1
  rw [List.length_append]
  rfl

theorem shiftPos_addSolution (gss : GssGraph) (a b : Nat) (t : SPPFTree)
    (i : Nat) : shiftPos (GssGraph.addSolution gss a b t) i = shiftPos gss i :=
  rfl

theorem addHead_heads_length (gss : GssGraph) (h : GssHead) :
    (gss.addHead h).1.heads.length = gss.heads.length + 1 := by
  show (gss.heads ++ [h]).length = gss.heads.length + 1
  rw [List.length_append]
  rfl

theorem addHead_parents (gss : GssGraph) (h : GssHead) :
    (gss.addHead h).1.parents = gss.parents := rfl

theorem addHead_edges (gss : GssGraph) (h : GssHead) :
    (gss.addHead h).1.edges = gss.edges := rfl

theorem shiftPos_addHead (gss : GssGraph) (h : GssHead) {i : Nat}
    (hi : i < gss.heads.length) :
    shiftPos (gss.addHead h).1 i = shiftPos gss i := by
  unfold shiftPos
  rw [addHead_headAt_lt gss h hi]

theorem shiftNewHead_position (p : GlrParser) (fidx : Nat) (gss : GssGraph)
    (head_idx state : Nat) :
    (shiftNewHead p fidx gss head_idx state).position = shiftPos gss head_idx :=
  rfl

/-- Invariant induction over the shifter drain: every processed shift ends
up merged by target state in the next frontier base, the merged head's
position is the shifted position (given per-state consistency), and an edge
to the old head carries exactly the consumed token as a single Terminal
possibility. -/
theorem shifterGo_spec (p : GlrParser) (fidx : Nat) :
    ∀ (l : List (Nat × Nat)) (gss : GssGraph) (base : NatMap Nat),
      (∀ pr ∈ l, pr.1 < gss.heads.length) →
      (∀ a ∈ l, ∀ b ∈ l, a.2 = b.2 → shiftPos gss a.1 = shiftPos gss b.1) →
      (∀ s hs, base.find? s = some hs → hs < gss.heads.length ∧
        ∀ a ∈ l, a.2 = s → (gss.headAt hs).position = shiftPos gss a.1) →
      ∀ pr ∈ l, ∃ hs,
        (shifterGo p fidx l gss base).2.find? pr.2 = some hs ∧
        ((shifterGo p fidx l gss base).1.headAt hs).position =
          shiftPos gss pr.1 ∧
        ∃ pi,
          (⟨hs, pr.1, pi⟩ : GssEdge) ∈ (shifterGo p fidx l gss base).1.edges ∧
          ((shifterGo p fidx l gss base).1.parentAt pi).possibilities =
            [termPossibility ((gss.headAt pr.1).tokenAhead.getD default)] := by
  intro l
  induction l with
  | nil =>
    intro gss base _ _ _ pr hpr
    exact absurd hpr (List.not_mem_nil pr)
  | cons hd rest ih =>
    intro gss base hvalid hcons hbase
    rcases hd with ⟨head_idx, state⟩
    have hhd_mem : (head_idx, state) ∈ (head_idx, state) :: rest :=
      List.mem_cons_self _ _
    have hhd_lt : head_idx < gss.heads.length := hvalid _ hhd_mem
    rcases hf : base.find? state with _ | sh
    · -- new merged head is created
      rw [shifterGo_cons_new p fidx head_idx state rest gss base hf]
      have hg2len :
          (GssGraph.addSolution
            (gss.addHead (shiftNewHead p fidx gss head_idx state)).1
            gss.heads.length head_idx
            (termPossibility ((gss.headAt head_idx).tokenAhead.getD
              default))).heads.length = gss.heads.length + 1 := by
        rw [addSolution_heads_length, addHead_heads_length]
      have hg2headAt : ∀ i, i < gss.heads.length →
          (GssGraph.addSolution
            (gss.addHead (shiftNewHead p fidx gss head_idx state)).1
            gss.heads.length head_idx
            (termPossibility ((gss.headAt head_idx).tokenAhead.getD
              default))).headAt i = gss.headAt i := by
        intro i hi
        rw [addSolution_headAt]
        exact addHead_headAt_lt gss _ hi
      have hg2new :
          (GssGraph.addSolution
            (gss.addHead (shiftNewHead p fidx gss head_idx state)).1
            gss.heads.length head_idx
            (termPossibility ((gss.headAt head_idx).tokenAhead.getD
              default))).headAt gss.heads.length =
            shiftNewHead p fidx gss head_idx state := by
        rw [addSolution_headAt]
        exact addHead_headAt_new gss _
      have hg2shiftPos : ∀ i, i < gss.heads.length →
          shiftPos (GssGraph.addSolution
            (gss.addHead (shiftNewHead p fidx gss head_idx state)).1
            gss.heads.length head_idx
            (termPossibility ((gss.headAt head_idx).tokenAhead.getD
              default))) i = shiftPos gss i := by
        intro i hi
        rw [shiftPos_addSolution]
        exact shiftPos_addHead gss _ hi
      have hvalid2 : ∀ pr ∈ rest, pr.1 <
          (GssGraph.addSolution
            (gss.addHead (shiftNewHead p fidx gss head_idx state)).1
            gss.heads.length head_idx
            (termPossibility ((gss.headAt head_idx).tokenAhead.getD
              default))).heads.length := by
        intro pr hpr
        rw [hg2len]
        exact Nat.lt_succ_of_lt (hvalid pr (List.mem_cons_of_mem _ hpr))
      have hcons2 : ∀ a ∈ rest, ∀ b ∈ rest, a.2 = b.2 →
          shiftPos (GssGraph.addSolution
            (gss.addHead (shiftNewHead p fidx gss head_idx state)).1
            gss.heads.length head_idx
            (termPossibility ((gss.headAt head_idx).tokenAhead.getD
              default))) a.1 =
          shiftPos (GssGraph.addSolution
            (gss.addHead (shiftNewHead p fidx gss head_idx state)).1
            gss.heads.length head_idx
            (termPossibility ((gss.headAt head_idx).tokenAhead.getD
              default))) b.1 := by
        intro a ha b hb hab
        rw [hg2shiftPos a.1 (hvalid a (List.mem_cons_of_mem _ ha)),
          hg2shiftPos b.1 (hvalid b (List.mem_cons_of_mem _ hb))]
        exact hcons a (List.mem_cons_of_mem _ ha)
          b (List.mem_cons_of_mem _ hb) hab
      have hbase2 : ∀ s hs,
          (base.insert state gss.heads.length).find? s = some hs →
          hs < (GssGraph.addSolution
            (gss.addHead (shiftNewHead p fidx gss head_idx state)).1
            gss.heads.length head_idx
            (termPossibility ((gss.headAt head_idx).tokenAhead.getD
              default))).heads.length ∧
          ∀ a ∈ rest, a.2 = s →
            ((GssGraph.addSolution
              (gss.addHead (shiftNewHead p fidx gss head_idx state)).1
              gss.heads.length head_idx
              (termPossibility ((gss.headAt head_idx).tokenAhead.getD
                default))).headAt hs).position =
            shiftPos (GssGraph.addSolution
              (gss.addHead (shiftNewHead p fidx gss head_idx state)).1
              gss.heads.length head_idx
              (termPossibility ((gss.headAt head_idx).tokenAhead.getD
                default))) a.1 := by
        intro s hs hfind
        by_cases hs5 : s = state
        · rw [hs5, natMap_find?_insert_self] at hfind
          have hhs : hs = gss.heads.length := (Option.some.inj hfind).symm
          subst hhs
          constructor
          · rw [hg2len]
            exact Nat.lt_succ_self _
          · intro a ha ha2
            rw [hg2new, shiftNewHead_position,
              hg2shiftPos a.1 (hvalid a (List.mem_cons_of_mem _ ha))]
            exact (hcons a (List.mem_cons_of_mem _ ha)
              (head_idx, state) hhd_mem (ha2.trans hs5)).symm
        · rw [natMap_find?_insert_ne base s state gss.heads.length hs5]
            at hfind
          obtain ⟨hlt, hpos⟩ := hbase s hs hfind
          constructor
          · rw [hg2len]
            exact Nat.lt_succ_of_lt hlt
          · intro a ha ha2
            rw [hg2headAt hs hlt,
              hg2shiftPos a.1 (hvalid a (List.mem_cons_of_mem _ ha))]
            exact hpos a (List.mem_cons_of_mem _ ha) ha2
      intro pr hpr
      rcases List.mem_cons.mp hpr with heq | hpr2
      · -- pr is the shift processed in this step
        obtain ⟨pv1, pv2, pv3, pv4, pv5, pv6⟩ :=
          shifterGo_preserves p fidx rest
            (GssGraph.addSolution
              (gss.addHead (shiftNewHead p fidx gss head_idx state)).1
              gss.heads.length head_idx
              (termPossibility ((gss.headAt head_idx).tokenAhead.getD
                default)))
            (base.insert state gss.heads.length)
        subst heq
        refine ⟨gss.heads.length, ?_, ?_, gss.parents.length, ?_, ?_⟩
        · exact pv6 state gss.heads.length
            (natMap_find?_insert_self base state gss.heads.length)
        · rw [pv2 gss.heads.length (by
            rw [hg2len]
            exact Nat.lt_succ_self _)]
          rw [hg2new]
          exact shiftNewHead_position p fidx gss head_idx state
        · refine pv5 _ ?_
          rw [addSolution_edges]
          refine List.mem_append_right _ ?_
          rw [addHead_parents]
          exact List.mem_singleton.mpr rfl
        · rw [pv4 gss.parents.length (by
            rw [addSolution_parents_length, addHead_parents]
            exact Nat.lt_succ_self _)]
          have hp := addSolution_parentAt_new
            (gss.addHead (shiftNewHead p fidx gss head_idx state)).1
            gss.heads.length head_idx
            (termPossibility ((gss.headAt head_idx).tokenAhead.getD default))
          rw [addHead_parents] at hp
          rw [hp]
      · -- pr is processed later
        obtain ⟨hs, h1, h2, pi, h3, h4⟩ := ih
          (GssGraph.addSolution
            (gss.addHead (shiftNewHead p fidx gss head_idx state)).1
            gss.heads.length head_idx
            (termPossibility ((gss.headAt head_idx).tokenAhead.getD
              default)))
          (base.insert state gss.heads.length)
          hvalid2 hcons2 hbase2 pr hpr2
        rw [hg2shiftPos pr.1 (hvalid pr (List.mem_cons_of_mem _ hpr2))] at h2
        rw [hg2headAt pr.1 (hvalid pr (List.mem_cons_of_mem _ hpr2))] at h4
        exact ⟨hs, h1, h2, pi, h3, h4⟩
    · -- merged into an existing head of the next frontier
      rw [shifterGo_cons_found p fidx head_idx state rest gss base sh hf]
      obtain ⟨hsh_lt, hsh_pos⟩ := hbase state sh hf
      have hg2headAt : ∀ i,
          (GssGraph.addSolution gss sh head_idx
            (termPossibility ((gss.headAt head_idx).tokenAhead.getD
              default))).headAt i = gss.headAt i := by
        intro i
        exact addSolution_headAt gss sh head_idx _ i
      have hg2shiftPos : ∀ i,
          shiftPos (GssGraph.addSolution gss sh head_idx
            (termPossibility ((gss.headAt head_idx).tokenAhead.getD
              default))) i = shiftPos gss i := by
        intro i
        exact shiftPos_addSolution gss sh head_idx _ i
      have hvalid2 : ∀ pr ∈ rest, pr.1 <
          (GssGraph.addSolution gss sh head_idx
            (termPossibility ((gss.headAt head_idx).tokenAhead.getD
              default))).heads.length := by
        intro pr hpr
        rw [addSolution_heads_length]
        exact hvalid pr (List.mem_cons_of_mem _ hpr)
      have hcons2 : ∀ a ∈ rest, ∀ b ∈ rest, a.2 = b.2 →
          shiftPos (GssGraph.addSolution gss sh head_idx
            (termPossibility ((gss.headAt head_idx).tokenAhead.getD
              default))) a.1 =
          shiftPos (GssGraph.addSolution gss sh head_idx
            (termPossibility ((gss.headAt head_idx).tokenAhead.getD
              default))) b.1 := by
        intro a ha b hb hab
        rw [hg2shiftPos a.1, hg2shiftPos b.1]
        exact hcons a (List.mem_cons_of_mem _ ha)
          b (List.mem_cons_of_mem _ hb) hab
      have hbase2 : ∀ s hs, base.find? s = some hs →
          hs < (GssGraph.addSolution gss sh head_idx
            (termPossibility ((gss.headAt head_idx).tokenAhead.getD
              default))).heads.length ∧
          ∀ a ∈ rest, a.2 = s →
            ((GssGraph.addSolution gss sh head_idx
              (termPossibility ((gss.headAt head_idx).tokenAhead.getD
                default))).headAt hs).position =
            shiftPos (GssGraph.addSolution gss sh head_idx
              (termPossibility ((gss.headAt head_idx).tokenAhead.getD
                default))) a.1 := by
        intro s hs hfind
        obtain ⟨hlt, hpos⟩ := hbase s hs hfind
        constructor
        · rw [addSolution_heads_length]
          exact hlt
        · intro a ha ha2
          rw [hg2headAt hs, hg2shiftPos a.1]
          exact hpos a (List.mem_cons_of_mem _ ha) ha2
      intro pr hpr
      rcases List.mem_cons.mp hpr with heq | hpr2
      · obtain ⟨pv1, pv2, pv3, pv4, pv5, pv6⟩ :=
          shifterGo_preserves p fidx rest
            (GssGraph.addSolution gss sh head_idx
              (termPossibility ((gss.headAt head_idx).tokenAhead.getD
                default)))
            base
        subst heq
        refine ⟨sh, pv6 state sh hf, ?_, gss.parents.length, ?_, ?_⟩
        · rw [pv2 sh (by
            rw [addSolution_heads_length]
            exact hsh_lt)]
          rw [hg2headAt sh]
          exact hsh_pos (head_idx, state) hhd_mem rfl
        · refine pv5 _ ?_
          rw [addSolution_edges]
          exact List.mem_append_right _ (List.mem_singleton.mpr rfl)
        · rw [pv4 gss.parents.length (by
            rw [addSolution_parents_length]
            exact Nat.lt_succ_self _)]
          exact congrArg Parent.possibilities
            (addSolution_parentAt_new gss sh head_idx _)
      · obtain ⟨hs, h1, h2, pi, h3, h4⟩ := ih
          (GssGraph.addSolution gss sh head_idx
            (termPossibility ((gss.headAt head_idx).tokenAhead.getD
              default)))
          base hvalid2 hcons2 hbase2 pr hpr2
        rw [hg2shiftPos pr.1] at h2
        rw [hg2headAt pr.1] at h4
        exact ⟨hs, h1, h2, pi, h3, h4⟩

/-- Claim C6 (amended): for every pending shift `(head, state)` drained by
the shifter, the next frontier base maps the target state to one merged
head (one head per state), that head is connected to the old head by an
edge whose possibilities are exactly the one Terminal SPPF node for the
consumed token, and — provided all drained shifts to the same state agree
on `position + token length` (otherwise the merged head keeps the value of
the shift that created it, see the counterexample) — the merged head's
position is the old head's position plus the length of the token shifted
over. -/
theorem shifter_merges_and_links (p : GlrParser) (gss : GssGraph)
    (pending_shifts : List (Nat × Nat)) (frontier_idx : Nat)
    (hvalid : ∀ pr ∈ pending_shifts, pr.1 < gss.heads.length)
    (hcons : ∀ a ∈ pending_shifts, ∀ b ∈ pending_shifts, a.2 = b.2 →
      shiftPos gss a.1 = shiftPos gss b.1) :
    ∀ pr ∈ pending_shifts, ∃ hs,
      (shifter p gss pending_shifts frontier_idx).2.find? pr.2 = some hs ∧
      ((shifter p gss pending_shifts frontier_idx).1.headAt hs).position =
        shiftPos gss pr.1 ∧
      ∃ pi, (⟨hs, pr.1, pi⟩ : GssEdge) ∈
          (shifter p gss pending_shifts frontier_idx).1.edges ∧
        ((shifter p gss pending_shifts
          frontier_idx).1.parentAt pi).possibilities =
          [termPossibility ((gss.headAt pr.1).tokenAhead.getD default)] := by
  intro pr hpr
  exact shifterGo_spec p frontier_idx pending_shifts.reverse gss NatMap.empty
    (fun a ha => hvalid a (List.mem_reverse.mp ha))
    (fun a ha b hb hab =>
      hcons a (List.mem_reverse.mp ha) b (List.mem_reverse.mp hb) hab)
    (fun s hs hfind => False.elim (Option.noConfusion hfind))
    pr (List.mem_reverse.mpr hpr)

theorem shifter_merges_and_links_witness :
    ∃ hs, (shifter deadParser shiftGss [(0, 5)] 1).2.find? 5 = some hs ∧
      ((shifter deadParser shiftGss [(0, 5)] 1).1.headAt hs).position =
        shiftPos shiftGss 0 ∧
      ∃ pi, (⟨hs, 0, pi⟩ : GssEdge) ∈
          (shifter deadParser shiftGss [(0, 5)] 1).1.edges ∧
        ((shifter deadParser shiftGss [(0, 5)] 1).1.parentAt
          pi).possibilities =
          [termPossibility ((shiftGss.headAt 0).tokenAhead.getD default)] :=
  shifter_merges_and_links deadParser shiftGss [(0, 5)] 1
    (by
      intro pr hpr
      rcases List.mem_singleton.mp hpr with rfl
      decide)
    (by
      intro a ha b hb _
      rcases List.mem_singleton.mp ha with rfl
      rcases List.mem_singleton.mp hb with rfl
      rfl)
    (0, 5) (List.mem_singleton.mpr rfl)

end Rustemo
